import Mathlib

/-!
# ReMPI clock propagation (`src/rempi_cp.cpp`)

A shallow embedding of the clock-propagation core of ReMPI: the collective
remote-indexing protocol, the per-process tables it initialises, the one-sided
clock collection and the in-flight-message oracle.

Conventions of the embedding.

* A rank is a natural number (MPI ranks are non-negative `int`s).
* The file-scope variables of `rempi_cp.cpp` become the fields of `State`, one
  value per process.
* C arrays are lists; an access outside the allocated length is undefined
  behaviour in C and is `none` here.
* `std::unordered_map<int,int>` is an association list with unique keys;
  `operator[]` is `umap_subscript`, which inserts a value-initialised entry
  when the key is missing, exactly as the C++ container does.
* The message counters (`size_t`, 64 bit) are natural numbers: a run performs
  far fewer than `2^64` increments, so the wrap-around of `++` is not modelled.
* MPI and the C library are not part of the repository.  Their routines appear
  either as parameters (`PMPI_Get`, the flush result, `qsort`, the arrival
  order of any-source receives) or as small executable models
  (`PMPI_Allreduce_sum`, message matching).
-/

namespace ReMPI

/-! ## Data model -/

/-- Modelled from the spec: the clock record `struct rempi_cp_prop_clock`
declared in the missing header `rempi_cp.h`, with the two integer fields the
source uses, `{ next_clock; send_count }`.  `next_clock` receives the `int`
argument of `rempi_cp_set_next_clock`; `send_count` starts at 0 and is only
incremented, so it is a natural number. -/
structure rempi_cp_prop_clock where
  next_clock : Int
  send_count : Nat
deriving DecidableEq, Repr

/-- The file-scope variables of `rempi_cp.cpp` (lines 17-34) of one process. -/
structure State where
  my_rank : Nat
  comm_size : Nat
  rempi_is_initialized : Int
  rempi_cp_gather_pc : List rempi_cp_prop_clock
  rempi_cp_scatter_pc : List rempi_cp_prop_clock
  rempi_pred_rank_count : Nat
  rempi_pred_ranks : List Nat
  rempi_pred_indices : List Nat
  rempi_pred_ranks_indices : List (Nat × Nat)
  rempi_recv_counts : List Nat
  rempi_succ_rank_count : Nat
  rempi_succ_ranks : List Nat
  rempi_succ_indices : List Nat
  rempi_succ_ranks_indices : List (Nat × Nat)
deriving DecidableEq, Repr

/-- The value of `MPI_SUCCESS`. -/
def MPI_SUCCESS : Int := 0

/-! ## `std::unordered_map<int,int>` -/

/-- Lookup without insertion (`find`): the value stored under `k`, if any. -/
def umap_find : List (Nat × Nat) → Nat → Option Nat
  | [], _ => none
  | (k', v) :: m, k => if k' = k then some v else umap_find m k

/-- The expression `m[k]` read as an rvalue: when `k` is missing the container
inserts `k` with the value-initialised `int` 0 and yields that 0. -/
def umap_subscript (m : List (Nat × Nat)) (k : Nat) : List (Nat × Nat) × Nat :=
  match umap_find m k with
  | some v => (m, v)
  | none => (m ++ [(k, 0)], 0)

/-- The statement `m[k] = v`: overwrite the entry of `k`, or insert it. -/
def umap_store : List (Nat × Nat) → Nat → Nat → List (Nat × Nat)
  | [], k, v => [(k, v)]
  | (k', v') :: m, k, v =>
    if k' = k then (k', v) :: m else (k', v') :: umap_store m k v

/-! ## Local operations (lines 261-296) -/

/-- The function `rempi_cp_has_in_flight_msgs` (lines 261-272).  The result is the state
after the call (the lookup may insert into the map) and the returned `int`. -/
def rempi_cp_has_in_flight_msgs (s : State) (source_rank : Nat) : Option (State × Int) :=
  let mi := umap_subscript s.rempi_pred_ranks_indices source_rank
  let index := mi.2
  match s.rempi_cp_gather_pc[index]?, s.rempi_recv_counts[index]? with
  | some pc, some rc =>
    some ({ s with rempi_pred_ranks_indices := mi.1 },
          if pc.send_count ≤ rc then 1 else 0)
  | _, _ => none

/-- The function `rempi_cp_record_recv` (lines 274-280); the `clock` argument is unused. -/
def rempi_cp_record_recv (s : State) (rank : Nat) (_clock : Nat) : Option State :=
  let mi := umap_subscript s.rempi_pred_ranks_indices rank
  let index := mi.2
  match s.rempi_recv_counts[index]? with
  | some rc =>
    some { s with rempi_pred_ranks_indices := mi.1,
                  rempi_recv_counts := s.rempi_recv_counts.set index (rc + 1) }
  | none => none

/-- One iteration of the loop of `rempi_cp_set_next_clock`. -/
def set_next_clock_body (clock : Int) (pcs : Option (List rempi_cp_prop_clock)) (i : Nat) :
    Option (List rempi_cp_prop_clock) :=
  match pcs with
  | none => none
  | some l =>
    match l[i]? with
    | some pc => some (l.set i { pc with next_clock := clock })
    | none => none

/-- The function `rempi_cp_set_next_clock` (lines 282-288). -/
def rempi_cp_set_next_clock (s : State) (clock : Int) : Option State :=
  match (List.range s.rempi_succ_rank_count).foldl (set_next_clock_body clock)
      (some s.rempi_cp_scatter_pc) with
  | some l => some { s with rempi_cp_scatter_pc := l }
  | none => none

/-- The function `rempi_cp_record_send` (lines 290-296); the `clock` argument is unused. -/
def rempi_cp_record_send (s : State) (dest_rank : Nat) (_clock : Nat) : Option State :=
  let mi := umap_subscript s.rempi_succ_ranks_indices dest_rank
  let index := mi.2
  match s.rempi_cp_scatter_pc[index]? with
  | some pc =>
    some { s with rempi_succ_ranks_indices := mi.1,
                  rempi_cp_scatter_pc :=
                    s.rempi_cp_scatter_pc.set index { pc with send_count := pc.send_count + 1 } }
  | none => none

/-! ## Clock collection (lines 242-259) -/

/-- What the caller of a `void` function and the terminal see of one call:
the lines written to `stderr`. -/
abbrev Stderr := List String

/-- One iteration of the loop of `rempi_cp_gather_clocks`.  `PMPI_Get rank disp`
is the outcome of the one-sided read of record `disp` of the window of `rank`:
the return code of the call and, when the transfer delivered data, the record
that is in the destination buffer when `rempi_cp_gather_clocks` returns.  The
transfers complete at the flush, so what a round leaves in the buffer, and
whether it leaves anything when the flush fails, is up to the environment. -/
def gather_clocks_body (PMPI_Get : Nat → Nat → Int × Option rempi_cp_prop_clock)
    (pred_ranks pred_indices : List Nat)
    (acc : Option (List rempi_cp_prop_clock × Stderr)) (i : Nat) :
    Option (List rempi_cp_prop_clock × Stderr) :=
  match acc with
  | none => none
  | some (gather_pc, err) =>
    match pred_ranks[i]?, pred_indices[i]? with
    | some rank, some disp =>
      if i < gather_pc.length then
        let r := PMPI_Get rank disp
        let gather_pc1 := match r.2 with
          | some pc => gather_pc.set i pc
          | none => gather_pc
        some (gather_pc1, if r.1 ≠ MPI_SUCCESS then err ++ ["PMPI_Get failed\n"] else err)
      else none
    | _, _ => none

/-- The function `rempi_cp_gather_clocks` (lines 242-259).  `flush_ret` is the return code of
`PMPI_Win_flush_local_all`.  The C function returns `void`: the state and the
text on `stderr` are all that a call leaves behind. -/
def rempi_cp_gather_clocks (PMPI_Get : Nat → Nat → Int × Option rempi_cp_prop_clock)
    (flush_ret : Int) (s : State) : Option (State × Stderr) :=
  match (List.range s.rempi_pred_rank_count).foldl
      (gather_clocks_body PMPI_Get s.rempi_pred_ranks s.rempi_pred_indices)
      (some (s.rempi_cp_gather_pc, [])) with
  | some (gather_pc, err) =>
    some ({ s with rempi_cp_gather_pc := gather_pc },
          if flush_ret ≠ MPI_SUCCESS then err ++ ["PMPI_Win_flush_local_all failed\n"] else err)
  | none => none

/-! ## Remote indexing (lines 60-188) -/

/-- The function `compare` (lines 60-63): the comparator handed to `qsort`.  It
yields 1 when the first value is the larger one and 0 otherwise; it never yields
a negative number. -/
def compare (val1 val2 : Nat) : Int := if val1 > val2 then 1 else 0

/-- The type of the C library routine `qsort` specialised to `int` arrays: the
comparator and the `nmemb` elements to sort. -/
abbrev Qsort := (Nat → Nat → Int) → List Nat → List Nat

/-- What the outputs of `rempi_cp_remote_indexing` are, for one process.  The two
successor arrays are the reused group-sized buffers; their first
`output_succ_rank_count` entries are the results. -/
structure Indexing where
  output_pred_indices : List Nat
  output_succ_rank_count : Nat
  output_succ_ranks : List Nat
  output_succ_indices : List Nat
deriving DecidableEq, Repr

/-- Step 1, lines 130-137: the zeroed flag array with a 1 written at every
listed predecessor. -/
def remote_rank_flags (comm_world_size : Nat) (input_pred_ranks : List Nat) : List Nat :=
  input_pred_ranks.foldl (fun flags r => flags.set r 1) (List.replicate comm_world_size 0)

/-- The collective `PMPI_Allreduce` with `MPI_SUM` over `count` ints: every process receives the
element-wise sum of the send buffers of all processes. -/
def PMPI_Allreduce_sum (count : Nat) (sendbufs : List (List Nat)) : List Nat :=
  (List.range count).map (fun r => (sendbufs.map (fun b => b.getD r 0)).sum)

/-- Step 1, line 138: the array `succ_rank_counts` every process holds after the
reduction.  `preds[r]` is the `input_pred_ranks` of rank `r`. -/
def succ_rank_counts (preds : List (List Nat)) : List Nat :=
  PMPI_Allreduce_sum preds.length (preds.map (remote_rank_flags preds.length))

/-- Step 2, lines 146-148: the destinations of the identity messages one process
sends, one `PMPI_Isend` of `my_rank` per entry of `input_pred_ranks`. -/
def gather_send_dests (input_pred_ranks : List Nat) : List Nat := input_pred_ranks

/-- The payloads of the identity messages issued by the processes `src`,
`src + 1`, ... (whose lists are `preds`) that are addressed to `r`. -/
def gather_mailbox_from : List (List Nat) → Nat → Nat → List Nat
  | [], _, _ => []
  | ps :: rest, src, r =>
    ((gather_send_dests ps).filter (fun d => d = r)).map (fun _ => src)
      ++ gather_mailbox_from rest (src + 1) r

/-- All identity messages (tag `REMPI_RI_GATHER_TAG`) of the group addressed to
rank `r`, as payloads, listed by sender. -/
def gather_mailbox (preds : List (List Nat)) (r : Nat) : List Nat :=
  gather_mailbox_from preds 0 r

/-- Step 2, lines 149-154: `succ_rank_count` any-source receives into the reused
flag buffer.  `arrival` lists the payloads addressed to this process in the order
the receives match them.  With fewer messages than receives `MPI_Waitall` never
returns (`none`). -/
def gather_recv (succ_rank_count : Nat) (arrival : List Nat) (buffer : List Nat) :
    Option (List Nat) :=
  if succ_rank_count ≤ arrival.length then
    some (arrival.take succ_rank_count ++ buffer.drop succ_rank_count)
  else none

/-- Step 4, lines 161-164, the stores of the loop: `succ_indices[j] = j` for
`j < succ_rank_count` in the reused count buffer. -/
def succ_indices_loop (succ_rank_count : Nat) (buffer : List Nat) : List Nat :=
  (List.range succ_rank_count).foldl (fun b j => b.set j j) buffer

/-- The local buffers of one process when it enters the waits of step 4. -/
structure Local where
  succ_rank_count : Nat
  succ_ranks : List Nat
  succ_indices : List Nat
deriving DecidableEq, Repr

/-- Steps 1 to 4 (sending half) of `rempi_cp_remote_indexing` on rank `my_rank`. -/
def remote_indexing_local (qsort : Qsort) (preds : List (List Nat)) (arrival : List Nat)
    (my_rank : Nat) : Option Local :=
  let comm_world_size := preds.length
  let remote_rank_flags := remote_rank_flags comm_world_size (preds.getD my_rank [])
  let succ_rank_counts := succ_rank_counts preds
  match succ_rank_counts[my_rank]? with
  | none => none
  | some succ_rank_count =>
    match gather_recv succ_rank_count arrival remote_rank_flags with
    | none => none
    | some succ_ranks =>
      let succ_ranks := qsort compare (succ_ranks.take succ_rank_count)
        ++ succ_ranks.drop succ_rank_count
      some { succ_rank_count := succ_rank_count,
             succ_ranks := succ_ranks,
             succ_indices := succ_indices_loop succ_rank_count succ_rank_counts }

/-- Step 4, line 163: the payloads of the index messages (tag
`REMPI_RI_SCATTER_TAG`) a process sends to `dst`, in the order it posts them. -/
def scatter_channel (l : Local) (dst : Nat) : List Nat :=
  ((List.range l.succ_rank_count).filter (fun j => l.succ_ranks[j]? = some dst)).filterMap
    (fun j => l.succ_indices[j]?)

/-- Step 4, line 167: the value the `i`-th receive delivers.  It names its source,
so it matches the messages of that source in the order they were sent: the
receive takes the message whose position is the number of earlier receives from
the same source.  Without such a message the wait never returns (`none`). -/
def scatter_recv (channel : Nat → List Nat) (input_pred_ranks : List Nat) (i : Nat) :
    Option Nat :=
  match input_pred_ranks[i]? with
  | some src => (channel src)[(input_pred_ranks.take i).count src]?
  | none => none

/-- All elements of a list of optional values, when none is missing. -/
def all_some {α : Type} : List (Option α) → Option (List α)
  | [] => some []
  | none :: _ => none
  | some a :: l =>
    match all_some l with
    | some r => some (a :: r)
    | none => none

/-- The receiving half of step 4 and the results of one process. -/
def remote_indexing_finish (locals : List Local) (preds : List (List Nat)) (my_rank : Nat) :
    Option Indexing :=
  match locals[my_rank]? with
  | none => none
  | some l =>
    let input_pred_ranks := preds.getD my_rank []
    let channel := fun src => match locals[src]? with
      | some ls => scatter_channel ls my_rank
      | none => []
    match all_some ((List.range input_pred_ranks.length).map
        (scatter_recv channel input_pred_ranks)) with
    | none => none
    | some output_pred_indices =>
      some { output_pred_indices := output_pred_indices,
             output_succ_rank_count := l.succ_rank_count,
             output_succ_ranks := l.succ_ranks,
             output_succ_indices := l.succ_indices }

/-- Steps 1 to 3 and the sends of step 4 on every rank of the group. -/
def remote_indexing_locals (qsort : Qsort) (preds : List (List Nat))
    (arrival : Nat → List Nat) : Option (List Local) :=
  all_some ((List.range preds.length).map
    (fun r => remote_indexing_local qsort preds (arrival r) r))

/-- The function `rempi_cp_remote_indexing` (lines 114-188) run by the whole group.
`preds[r]` is the predecessor list rank `r` passes in, `arrival r` the order in
which the any-source receives of rank `r` match identity messages.  A rank
outside the group indexes outside the flag array (undefined behaviour), a
receive without a message blocks the collective: both are `none`. -/
def rempi_cp_remote_indexing (qsort : Qsort) (preds : List (List Nat))
    (arrival : Nat → List Nat) : Option (List Indexing) :=
  if preds.all (fun ps => ps.all (fun r => decide (r < preds.length))) then
    match remote_indexing_locals qsort preds arrival with
    | none => none
    | some locals =>
      all_some ((List.range preds.length).map (remote_indexing_finish locals preds))
  else none

/-! ## Initialisation (lines 190-228) -/

/-- The loops of lines 218-224: `map[ranks[i]] = i` for the entries of `ranks`
from index `i` on. -/
def init_map_loop : List Nat → Nat → List (Nat × Nat) → List (Nat × Nat)
  | [], _, m => m
  | r :: rs, i, m => init_map_loop rs (i + 1) (umap_store m r i)

/-- The function `rempi_cp_init` (lines 190-228) on one process, given the results `ri` of the
collective `rempi_cp_remote_indexing`.  `malloc_pc i` is the uninitialised
content of entry `i` of the freshly allocated snapshot buffer;
`PMPI_Win_allocate` is taken to succeed. -/
def rempi_cp_init (rank size : Nat) (input_pred_ranks : List Nat) (ri : Indexing)
    (malloc_pc : Nat → rempi_cp_prop_clock) : State :=
  { my_rank := rank,
    comm_size := size,
    rempi_is_initialized := 1,
    rempi_cp_gather_pc := (List.range input_pred_ranks.length).map malloc_pc,
    rempi_cp_scatter_pc :=
      List.replicate ri.output_succ_rank_count { next_clock := 0, send_count := 0 },
    rempi_pred_rank_count := input_pred_ranks.length,
    rempi_pred_ranks := input_pred_ranks,
    rempi_pred_indices := ri.output_pred_indices,
    rempi_pred_ranks_indices := init_map_loop input_pred_ranks 0 [],
    rempi_recv_counts := List.replicate input_pred_ranks.length 0,
    rempi_succ_rank_count := ri.output_succ_rank_count,
    rempi_succ_ranks := ri.output_succ_ranks,
    rempi_succ_indices := ri.output_succ_indices,
    rempi_succ_ranks_indices :=
      init_map_loop (ri.output_succ_ranks.take ri.output_succ_rank_count) 0 [] }

/-- The tables of a process are consistent with the counts `rempi_cp_init` sets:
every array has the length it was allocated with and every index stored in the
two rank-to-index maps addresses an allocated entry. -/
def Initialized (s : State) : Prop :=
  s.rempi_is_initialized = 1 ∧
  s.rempi_cp_gather_pc.length = s.rempi_pred_rank_count ∧
  s.rempi_recv_counts.length = s.rempi_pred_rank_count ∧
  s.rempi_pred_ranks.length = s.rempi_pred_rank_count ∧
  s.rempi_pred_indices.length = s.rempi_pred_rank_count ∧
  s.rempi_cp_scatter_pc.length = s.rempi_succ_rank_count ∧
  (∀ p ∈ s.rempi_pred_ranks_indices, p.2 < s.rempi_pred_rank_count) ∧
  (∀ p ∈ s.rempi_succ_ranks_indices, p.2 < s.rempi_succ_rank_count)

instance (s : State) : Decidable (Initialized s) := by
  unfold Initialized
  exact inferInstance

/-- The published `send_count` of every successor slot. -/
def send_counts (s : State) : List Nat :=
  s.rempi_cp_scatter_pc.map (fun pc => pc.send_count)

/-- The published `next_clock` of every successor slot. -/
def next_clocks (s : State) : List Int :=
  s.rempi_cp_scatter_pc.map (fun pc => pc.next_clock)

/-! ## A `qsort` of the C library -/

/-- Insertion of one element into a sorted prefix: the element moves behind
every element the comparator reports it to be greater than. -/
def qsort_insert (cmp : Nat → Nat → Int) (x : Nat) : List Nat → List Nat
  | [] => [x]
  | y :: ys => if cmp x y > 0 then y :: qsort_insert cmp x ys else x :: y :: ys

/-- One `qsort`: an insertion sort that consults the comparator through the test
`cmp x y > 0` only, the way a merge sort that keeps the left element on
`cmp <= 0` does.  It serves as the concrete library routine in the examples. -/
def insertion_qsort : Qsort := fun cmp l => l.foldr (qsort_insert cmp) []

/-- Insertion of one element into a sorted prefix: the element goes in front of
the first element the comparator reports it to be less than (a negative
result). -/
def qsort_insert_negative (cmp : Nat → Nat → Int) (x : Nat) : List Nat → List Nat
  | [] => [x]
  | y :: ys => if cmp x y < 0 then x :: y :: ys else y :: qsort_insert_negative cmp x ys

/-- Another `qsort`: an insertion sort that consults the comparator through the
test `cmp x y < 0` only, the way a quicksort written with `cmp(a, b) < 0` and its
final insertion pass do.  Under a comparator that follows the contract of
`qsort` (negative exactly when the first value is the smaller one) it sorts
every array. -/
def negative_test_qsort : Qsort := fun cmp l => l.foldr (qsort_insert_negative cmp) []

/-- A comparator that follows the contract of `qsort`: negative, zero or positive
as the first value is smaller than, equal to or greater than the second. -/
def three_way_compare (val1 val2 : Nat) : Int := (val1 : Int) - (val2 : Int)

/-- The library routine returns the elements it was given, rearranged. -/
def QsortPermutes (qsort : Qsort) : Prop := ∀ l, (qsort compare l).Perm l

/-! ## The group of processes -/

/-- The predecessor lists handed to `rempi_cp_init` name ranks of the group and
repeat no rank. -/
def ValidTopology (preds : List (List Nat)) : Prop :=
  ∀ ps ∈ preds, ps.Nodup ∧ ∀ r ∈ ps, r < preds.length

instance (preds : List (List Nat)) : Decidable (ValidTopology preds) := by
  unfold ValidTopology
  exact inferInstance

/-- The any-source receives of every rank match the identity messages addressed
to it, in some order. -/
def ValidArrival (preds : List (List Nat)) (arrival : Nat → List Nat) : Prop :=
  ∀ r, r < preds.length → (arrival r).Perm (gather_mailbox preds r)

instance (preds : List (List Nat)) (arrival : Nat → List Nat) :
    Decidable (ValidArrival preds arrival) := by
  unfold ValidArrival
  exact inferInstance

/-- The number of processes that list `r` as a predecessor. -/
def listing_count (preds : List (List Nat)) (r : Nat) : Nat :=
  preds.countP (fun ps => decide (r ∈ ps))

/-- The results of `rempi_cp_remote_indexing` used when a rank has none. -/
def no_indexing : Indexing :=
  { output_pred_indices := [], output_succ_rank_count := 0,
    output_succ_ranks := [], output_succ_indices := [] }

/-- The function `rempi_cp_init` called by every process of the group: the state of each rank
after the collective.  `malloc_pc r` is the uninitialised snapshot buffer of
rank `r`. -/
def world_init (qsort : Qsort) (preds : List (List Nat)) (arrival : Nat → List Nat)
    (malloc_pc : Nat → Nat → rempi_cp_prop_clock) : Option (List State) :=
  match rempi_cp_remote_indexing qsort preds arrival with
  | none => none
  | some ris =>
    some ((List.range preds.length).map (fun r =>
      rempi_cp_init r preds.length (preds.getD r []) (ris.getD r no_indexing) (malloc_pc r)))

/-- A call of the interface made by process `p`. -/
inductive Call where
  | record_send (p dest_rank clock : Nat)
  | record_recv (p rank clock : Nat)
  | set_next_clock (p : Nat) (clock : Int)
  | gather_clocks (p : Nat)
  | has_in_flight_msgs (p source_rank : Nat)
deriving DecidableEq, Repr

/-- An error class returned by a one-sided read that names no window record. -/
def MPI_ERR_RANK : Int := 6

/-- The read `PMPI_Get` inside the group: the read of record `disp` of the window of
`rank` delivers what that process publishes there at the time of the call. -/
def world_PMPI_Get (w : List State) (rank disp : Nat) : Int × Option rempi_cp_prop_clock :=
  match w[rank]? with
  | none => (MPI_ERR_RANK, none)
  | some t =>
    match t.rempi_cp_scatter_pc[disp]? with
    | some pc => (MPI_SUCCESS, some pc)
    | none => (MPI_ERR_RANK, none)

/-- Replace the state of process `p` by the result of an operation on it. -/
def world_update (w : List State) (p : Nat) (op : State → Option State) : Option (List State) :=
  match w[p]? with
  | none => none
  | some s =>
    match op s with
    | some s1 => some (w.set p s1)
    | none => none

/-- The process that makes a call. -/
def Call.proc : Call → Nat
  | Call.record_send p _ _ => p
  | Call.record_recv p _ _ => p
  | Call.set_next_clock p _ => p
  | Call.gather_clocks p => p
  | Call.has_in_flight_msgs p _ => p

/-- The operation a call runs on the state of its process; the one-sided reads of
`rempi_cp_gather_clocks` see the group `w` and its flush succeeds. -/
def Call.op (w : List State) : Call → State → Option State
  | Call.record_send _ dest_rank clock => fun s => rempi_cp_record_send s dest_rank clock
  | Call.record_recv _ rank clock => fun s => rempi_cp_record_recv s rank clock
  | Call.set_next_clock _ clock => fun s => rempi_cp_set_next_clock s clock
  | Call.gather_clocks _ => fun s =>
    (rempi_cp_gather_clocks (world_PMPI_Get w) MPI_SUCCESS s).map Prod.fst
  | Call.has_in_flight_msgs _ source_rank => fun s =>
    (rempi_cp_has_in_flight_msgs s source_rank).map Prod.fst

/-- The effect of one call on the group; calls are executed one after another. -/
def world_step (w : List State) (c : Call) : Option (List State) :=
  world_update w c.proc (c.op w)

/-- A sequential run: the calls are executed in order. -/
def world_run : List State → List Call → Option (List State)
  | w, [] => some w
  | w, c :: cs =>
    match world_step w c with
    | some w1 => world_run w1 cs
    | none => none

/-- The value `rempi_cp_has_in_flight_msgs(source_rank)` returns on process `p`. -/
def world_has_in_flight (w : List State) (p source_rank : Nat) : Option Int :=
  match w[p]? with
  | none => none
  | some s => (rempi_cp_has_in_flight_msgs s source_rank).map Prod.snd

/-- A call that respects the topology: its process belongs to the group and the
rank it names is one of its successors (`record_send`) or one of its
predecessors (`record_recv`, `has_in_flight_msgs`). -/
def Call.valid (preds : List (List Nat)) : Call → Prop
  | Call.record_send p dest_rank _ => p < preds.length ∧ p ∈ preds.getD dest_rank []
  | Call.record_recv p rank _ => p < preds.length ∧ rank ∈ preds.getD p []
  | Call.set_next_clock p _ => p < preds.length
  | Call.gather_clocks p => p < preds.length
  | Call.has_in_flight_msgs p source_rank => p < preds.length ∧ source_rank ∈ preds.getD p []

instance (preds : List (List Nat)) (c : Call) : Decidable (Call.valid preds c) := by
  cases c <;> (unfold Call.valid; exact inferInstance)

/-- The number of `rempi_cp_record_send(dst)` calls process `src` made in a run. -/
def record_send_calls (src dst : Nat) : List Call → Nat
  | [] => 0
  | Call.record_send p d _ :: cs =>
    (if p = src ∧ d = dst then 1 else 0) + record_send_calls src dst cs
  | _ :: cs => record_send_calls src dst cs

/-- The number of `rempi_cp_record_recv(src)` calls process `dst` made in a run. -/
def record_recv_calls (dst src : Nat) : List Call → Nat
  | [] => 0
  | Call.record_recv p r _ :: cs =>
    (if p = dst ∧ r = src then 1 else 0) + record_recv_calls dst src cs
  | _ :: cs => record_recv_calls dst src cs

/-- The value of the last `rempi_cp_set_next_clock` call of process `p` in a run
that starts with the published value `init`. -/
def last_next_clock (p : Nat) : Int → List Call → Int
  | init, [] => init
  | init, Call.set_next_clock q clock :: cs =>
    last_next_clock p (if q = p then clock else init) cs
  | init, _ :: cs => last_next_clock p init cs

/-- The tables `rempi_cp_init` fills once: counts, rank arrays, index arrays and
the two rank-to-index maps. -/
def tables (s : State) :
    Int × Nat × List Nat × List Nat × List (Nat × Nat) × Nat × List Nat × List Nat
      × List (Nat × Nat) :=
  (s.rempi_is_initialized, s.rempi_pred_rank_count, s.rempi_pred_ranks, s.rempi_pred_indices,
    s.rempi_pred_ranks_indices, s.rempi_succ_rank_count, s.rempi_succ_ranks,
    s.rempi_succ_indices, s.rempi_succ_ranks_indices)

/-- The state `s1` has the tables of `s` and buffers of the same sizes. -/
def SameTables (s s1 : State) : Prop :=
  tables s1 = tables s ∧
  s1.rempi_cp_gather_pc.length = s.rempi_cp_gather_pc.length ∧
  s1.rempi_cp_scatter_pc.length = s.rempi_cp_scatter_pc.length ∧
  s1.rempi_recv_counts.length = s.rempi_recv_counts.length

/-- The maps of process `p` cover the topology: every predecessor of `p` has an
index, every process that lists `p` has a slot, and no two ranks share an index
or a slot. -/
def ProcOK (preds : List (List Nat)) (p : Nat) (s : State) : Prop :=
  Initialized s ∧
  (∀ r, r ∈ preds.getD p [] → ∃ i, umap_find s.rempi_pred_ranks_indices r = some i) ∧
  (∀ d ps, preds[d]? = some ps → p ∈ ps →
    ∃ j, umap_find s.rempi_succ_ranks_indices d = some j) ∧
  (∀ r r1 i, umap_find s.rempi_pred_ranks_indices r = some i →
    umap_find s.rempi_pred_ranks_indices r1 = some i → r = r1) ∧
  (∀ d d1 j, umap_find s.rempi_succ_ranks_indices d = some j →
    umap_find s.rempi_succ_ranks_indices d1 = some j → d = d1)

/-! ## Concrete states and groups -/

/-- The results of the remote indexing on rank 2 of the group of three in which
rank 2 lists the predecessors 0 and 1 and nobody lists rank 2. -/
def rank2_indexing : Indexing :=
  { output_pred_indices := [0, 0], output_succ_rank_count := 0,
    output_succ_ranks := [1, 1, 0], output_succ_indices := [1, 1, 0] }

/-- Rank 2 of that group after `rempi_cp_init` and a collection that found one
message published by rank 0 and none by rank 1; nothing was received yet. -/
def rank2_after_collect : State :=
  { rempi_cp_init 2 3 [0, 1] rank2_indexing (fun _ => { next_clock := 0, send_count := 0 }) with
    rempi_cp_gather_pc := [{ next_clock := 0, send_count := 1 }, { next_clock := 0, send_count := 0 }] }

/-- The results of the remote indexing on rank 0 of the group of the source
comment (rank 0 reads ranks 1 and 2, rank 1 reads rank 2, rank 2 reads all). -/
def rank0_indexing : Indexing :=
  { output_pred_indices := [0, 0], output_succ_rank_count := 1,
    output_succ_ranks := [2, 1, 1], output_succ_indices := [0, 2, 3] }

/-- Rank 0 of the group of the source comment after `rempi_cp_init`. -/
def rank0_state : State :=
  rempi_cp_init 0 3 [1, 2] rank0_indexing (fun _ => { next_clock := 0, send_count := 0 })

/-- An error class returned by a failing flush. -/
def MPI_ERR_OTHER : Int := 15

/-- Rank 2 of the group of three (predecessors 0 and 1) after `rempi_cp_init`. -/
def rank2_state : State :=
  rempi_cp_init 2 3 [0, 1] rank2_indexing (fun _ => { next_clock := 0, send_count := 0 })

/-- A round in which every one-sided read is issued without error but delivers
nothing, as when the flush that completes the transfers fails. -/
def get_pending : Nat → Nat → Int × Option rempi_cp_prop_clock :=
  fun _ _ => (MPI_SUCCESS, none)

/-- A round in which every one-sided read succeeds and finds the record of a
predecessor that has published nothing yet. -/
def get_unchanged : Nat → Nat → Int × Option rempi_cp_prop_clock :=
  fun _ _ => (MPI_SUCCESS, some { next_clock := 0, send_count := 0 })

/-- A round in which every one-sided read fails and delivers nothing. -/
def get_fails : Nat → Nat → Int × Option rempi_cp_prop_clock :=
  fun _ _ => (MPI_ERR_RANK, none)

/-- The lines `rempi_cp_gather_clocks` writes for the failing reads of a round:
one per predecessor index whose `PMPI_Get` does not return `MPI_SUCCESS`. -/
def get_diagnostics (PMPI_Get : Nat → Nat → Int × Option rempi_cp_prop_clock)
    (pred_ranks pred_indices : List Nat) (n : Nat) : Stderr :=
  ((List.range n).filter (fun i =>
    decide ((PMPI_Get (pred_ranks.getD i 0) (pred_indices.getD i 0)).1 ≠ MPI_SUCCESS))).map
    (fun _ => "PMPI_Get failed\n")

/-- The line `rempi_cp_gather_clocks` writes for a failing flush. -/
def flush_diagnostics (flush_ret : Int) : Stderr :=
  if flush_ret ≠ MPI_SUCCESS then ["PMPI_Win_flush_local_all failed\n"] else []

/-- The buffers a rank holds after step 3 in a run that does not block, in closed
form: as many successors as processes list the rank, the sorted arrivals in
front of the untouched rest of the flag buffer, and the indices written by the
loop of step 4. -/
def local_result (qsort : Qsort) (preds : List (List Nat)) (arrival : Nat → List Nat)
    (r : Nat) : Local :=
  { succ_rank_count := listing_count preds r,
    succ_ranks := qsort compare (arrival r)
      ++ (remote_rank_flags preds.length (preds.getD r [])).drop (listing_count preds r),
    succ_indices := succ_indices_loop (listing_count preds r) (succ_rank_counts preds) }

/-- The results of `rempi_cp_remote_indexing` on a rank in a run that does not
block, in closed form: the index received from a predecessor is the position of
this rank in the sorted successor array of that predecessor. -/
def indexing_result (qsort : Qsort) (preds : List (List Nat)) (arrival : Nat → List Nat)
    (r : Nat) : Indexing :=
  { output_pred_indices :=
      (List.range (preds.getD r []).length).map
        (fun i => (qsort compare (arrival ((preds.getD r []).getD i 0))).indexOf r),
    output_succ_rank_count := (local_result qsort preds arrival r).succ_rank_count,
    output_succ_ranks := (local_result qsort preds arrival r).succ_ranks,
    output_succ_indices := (local_result qsort preds arrival r).succ_indices }

/-- The group of the worked example in the source comment (lines 73-76): rank 0
reads ranks 1 and 2, rank 1 reads rank 2, rank 2 reads ranks 0, 1 and 2. -/
def example_preds : List (List Nat) := [[1, 2], [2], [0, 1, 2]]

/-- The group of three in which rank 2 lists the predecessors 0 and 1 and the
other ranks list none. -/
def scenario_preds : List (List Nat) := [[], [], [0, 1]]

/-- A group of two in which rank 0 lists rank 1 twice. -/
def repeated_preds : List (List Nat) := [[1, 1], []]

/-- An arrival order: the identity messages reach every rank from the highest
sender down. -/
def descending_arrival (preds : List (List Nat)) (r : Nat) : List Nat :=
  (gather_mailbox preds r).reverse

/-- An arrival order: the identity messages reach every rank from the lowest
sender up. -/
def ascending_arrival (preds : List (List Nat)) (r : Nat) : List Nat :=
  gather_mailbox preds r

/-- What the calls `calls` of a run did to process `p`, from its state `s` before
to its state `s1` after: the tables are the same, the slot of every successor
gained one send per `record_send` to that successor, every slot carries the
last published clock, and the counter of every predecessor gained one per
`record_recv` from that predecessor. -/
def Effect (p : Nat) (calls : List Call) (s s1 : State) : Prop :=
  SameTables s s1 ∧
  (∀ d j, umap_find s.rempi_succ_ranks_indices d = some j →
    (send_counts s1).getD j 0 = (send_counts s).getD j 0 + record_send_calls p d calls) ∧
  (∀ j, j < s.rempi_succ_rank_count →
    (next_clocks s1).getD j 0 = last_next_clock p ((next_clocks s).getD j 0) calls) ∧
  (∀ r i, umap_find s.rempi_pred_ranks_indices r = some i →
    s1.rempi_recv_counts.getD i 0 = s.rempi_recv_counts.getD i 0 + record_recv_calls p r calls)

/-- No published send count and no receive counter of `s1` is below its value
in `s`. -/
def CountersGrow (s s1 : State) : Prop :=
  (send_counts s1).length = (send_counts s).length ∧
  s1.rempi_recv_counts.length = s.rempi_recv_counts.length ∧
  (∀ j, (send_counts s).getD j 0 ≤ (send_counts s1).getD j 0) ∧
  (∀ i, s.rempi_recv_counts.getD i 0 ≤ s1.rempi_recv_counts.getD i 0)

/-- Every rank of the group has a state whose maps cover the topology. -/
def WorldOK (preds : List (List Nat)) (w : List State) : Prop :=
  w.length = preds.length ∧ ∀ p s, w[p]? = some s → ProcOK preds p s

/-- The state of rank `r` after `rempi_cp_init` in a run whose collective does not
block, in closed form. -/
def init_state (qsort : Qsort) (preds : List (List Nat)) (arrival : Nat → List Nat)
    (malloc_pc : Nat → Nat → rempi_cp_prop_clock) (r : Nat) : State :=
  rempi_cp_init r preds.length (preds.getD r []) (indexing_result qsort preds arrival r)
    (malloc_pc r)

/-- Snapshot buffers that happen to be allocated zeroed. -/
def zero_malloc : Nat → Nat → rempi_cp_prop_clock :=
  fun _ _ => { next_clock := 0, send_count := 0 }

/-- The group of three after `rempi_cp_init` on all ranks, followed by the calls
`calls`, a collection on rank 2 and the question of rank 2 about rank 0. -/
def scenario_answer (calls : List Call) : Option Int :=
  match world_init insertion_qsort scenario_preds (ascending_arrival scenario_preds)
      zero_malloc with
  | none => none
  | some w0 =>
    match world_run w0 (calls ++ [Call.gather_clocks 2]) with
    | none => none
    | some w1 => world_has_in_flight w1 2 0

/-- The snapshot buffer of rank 2 of the group of three after `rempi_cp_init` on
all ranks, the calls `calls` and a collection on rank 2. -/
def scenario_snapshot (calls : List Call) : Option (List rempi_cp_prop_clock) :=
  match world_init insertion_qsort scenario_preds (ascending_arrival scenario_preds)
      zero_malloc with
  | none => none
  | some w0 =>
    match world_run w0 (calls ++ [Call.gather_clocks 2]) with
    | none => none
    | some w1 => (w1[2]?).map (fun s => s.rempi_cp_gather_pc)

/-- The state `s1` has the counts and the rank and index arrays of `s` and
buffers of the same sizes; the two maps may differ. -/
def SameArrays (s s1 : State) : Prop :=
  s1.rempi_pred_rank_count = s.rempi_pred_rank_count ∧
  s1.rempi_pred_ranks = s.rempi_pred_ranks ∧
  s1.rempi_pred_indices = s.rempi_pred_indices ∧
  s1.rempi_succ_rank_count = s.rempi_succ_rank_count ∧
  s1.rempi_cp_gather_pc.length = s.rempi_cp_gather_pc.length ∧
  s1.rempi_cp_scatter_pc.length = s.rempi_cp_scatter_pc.length ∧
  s1.rempi_recv_counts.length = s.rempi_recv_counts.length

/-- What the calls `calls` of a run did to the published store of process `p`,
from its state `s` before to its state `s1` after: the successor map is the
same, the slot of every successor gained one send per `record_send` to that
successor, and every slot carries the last published clock. -/
def SendEffect (p : Nat) (calls : List Call) (s s1 : State) : Prop :=
  s1.rempi_succ_ranks_indices = s.rempi_succ_ranks_indices ∧
  (∀ d j, umap_find s.rempi_succ_ranks_indices d = some j →
    (send_counts s1).getD j 0 = (send_counts s).getD j 0 + record_send_calls p d calls) ∧
  (∀ j, j < s.rempi_succ_rank_count →
    (next_clocks s1).getD j 0 = last_next_clock p ((next_clocks s).getD j 0) calls)

/-- The group of three after `rempi_cp_init` on all ranks, with zeroed snapshot
buffers and identity messages arriving from the lowest sender up. -/
def scenario_init : List State :=
  (world_init insertion_qsort scenario_preds (ascending_arrival scenario_preds)
    zero_malloc).getD []

/-- The group of three after `rempi_cp_init` on all ranks and the calls `calls`. -/
def scenario_after (calls : List Call) : List State :=
  (world_run scenario_init calls).getD []

/-! # Theorems -/

/-! ## Association-list facts -/

theorem umap_find_mem {m : List (Nat × Nat)} {k v : Nat} (h : umap_find m k = some v) :
    (k, v) ∈ m := by
  induction m with
  | nil => simp [umap_find] at h
  | cons p m ih =>
    obtain ⟨k1, v1⟩ := p
    by_cases hk : k1 = k
    · simp [umap_find, hk] at h
      simp [hk, h]
    · simp [umap_find, hk] at h
      exact List.mem_cons_of_mem _ (ih h)

theorem umap_subscript_present {m : List (Nat × Nat)} {k v : Nat}
    (h : umap_find m k = some v) : umap_subscript m k = (m, v) := by
  simp [umap_subscript, h]

theorem umap_subscript_absent {m : List (Nat × Nat)} {k : Nat}
    (h : umap_find m k = none) : umap_subscript m k = (m ++ [(k, 0)], 0) := by
  simp [umap_subscript, h]

theorem umap_find_store (m : List (Nat × Nat)) (k v k1 : Nat) :
    umap_find (umap_store m k v) k1 = if k = k1 then some v else umap_find m k1 := by
  induction m with
  | nil => simp [umap_store, umap_find]
  | cons p m ih =>
    obtain ⟨a, b⟩ := p
    by_cases ha : a = k
    · subst ha
      by_cases h1 : a = k1 <;> simp [umap_store, umap_find, h1]
    · by_cases h1 : a = k1
      · subst h1
        have : ¬ k = a := fun h => ha h.symm
        simp [umap_store, umap_find, ha, this]
      · simp [umap_store, umap_find, ha, h1, ih]

theorem umap_store_values (m : List (Nat × Nat)) (k v n : Nat) (hv : v < n)
    (hm : ∀ p ∈ m, p.2 < n) : ∀ p ∈ umap_store m k v, p.2 < n := by
  induction m with
  | nil => simp [umap_store]; exact hv
  | cons q m ih =>
    obtain ⟨a, b⟩ := q
    by_cases ha : a = k
    · simp only [umap_store, ha, if_true]
      intro p hp
      rcases List.mem_cons.1 hp with h | h
      · subst h; exact hv
      · exact hm p (List.mem_cons_of_mem _ h)
    · simp only [umap_store, ha, if_false]
      intro p hp
      rcases List.mem_cons.1 hp with h | h
      · subst h; exact hm (a, b) (List.mem_cons_self _ _)
      · exact ih (fun p hp => hm p (List.mem_cons_of_mem _ hp)) p h

theorem init_map_loop_values (rs : List Nat) (i n : Nat) (m : List (Nat × Nat))
    (hn : i + rs.length ≤ n) (hm : ∀ p ∈ m, p.2 < n) :
    ∀ p ∈ init_map_loop rs i m, p.2 < n := by
  induction rs generalizing i m with
  | nil => simpa [init_map_loop] using hm
  | cons r rs ih =>
    simp only [init_map_loop]
    simp only [List.length_cons] at hn
    exact ih (i + 1) _ (by omega) (umap_store_values m r i n (by omega) hm)

theorem init_map_loop_find (rs : List Nat) (hrs : rs.Nodup) (i : Nat) (m : List (Nat × Nat))
    (k : Nat) :
    umap_find (init_map_loop rs i m) k =
      if k ∈ rs then some (i + rs.indexOf k) else umap_find m k := by
  induction rs generalizing i m with
  | nil => simp [init_map_loop]
  | cons r rs ih =>
    have hr : r ∉ rs := (List.nodup_cons.1 hrs).1
    simp only [init_map_loop]
    rw [ih (List.nodup_cons.1 hrs).2, umap_find_store]
    by_cases hk : k ∈ rs
    · have hne : r ≠ k := fun h => hr (h ▸ hk)
      have hne1 : ¬ k = r := fun h => hne h.symm
      simp [hk, List.indexOf_cons_ne _ hne]
      omega
    · by_cases hkr : r = k
      · subst hkr
        simp [hk]
      · have : ¬ k = r := fun h => hkr h.symm
        simp [hk, hkr, this]

/-- The state `rempi_cp_init` builds is consistent, whatever the outcome of the
remote indexing, as long as it delivered one index per predecessor. -/
theorem rempi_cp_init_Initialized (rank size : Nat) (input_pred_ranks : List Nat)
    (ri : Indexing) (malloc_pc : Nat → rempi_cp_prop_clock)
    (hri : ri.output_pred_indices.length = input_pred_ranks.length) :
    Initialized (rempi_cp_init rank size input_pred_ranks ri malloc_pc) := by
  refine ⟨rfl, ?_, ?_, rfl, hri, ?_, ?_, ?_⟩
  · simp [rempi_cp_init]
  · simp [rempi_cp_init]
  · simp [rempi_cp_init]
  · exact init_map_loop_values _ 0 _ [] (by simp [rempi_cp_init]) (by simp)
  · refine init_map_loop_values _ 0 _ [] ?_ (by simp)
    simp [rempi_cp_init]

/-! ## The local operations -/

/-- C1: on an initialised state and a rank the predecessor map sends to index
`i`, `rempi_cp_has_in_flight_msgs` returns 1 exactly when
`snapshot[i].send_count <= recv_counts[i]` and 0 when the send count is the
larger one: the opposite of the answer the specification asks for. -/
theorem C1_has_in_flight_answers_le (s : State) (hs : Initialized s) (source_rank i : Nat)
    (hi : umap_find s.rempi_pred_ranks_indices source_rank = some i) :
    i < s.rempi_cp_gather_pc.length ∧ i < s.rempi_recv_counts.length ∧
    ∀ pc rc, s.rempi_cp_gather_pc[i]? = some pc → s.rempi_recv_counts[i]? = some rc →
      rempi_cp_has_in_flight_msgs s source_rank
        = some (s, if pc.send_count ≤ rc then 1 else 0) := by
  obtain ⟨_, hg, hr, _, _, _, hp, _⟩ := hs
  have hlt : i < s.rempi_pred_rank_count := hp _ (umap_find_mem hi)
  refine ⟨by omega, by omega, ?_⟩
  intro pc rc h1 h2
  simp [rempi_cp_has_in_flight_msgs, umap_subscript_present hi, h1, h2]

/-- C1 at the failing input: rank 0 has published one message, rank 2 has
received none (`send_count = 1 > 0 = recv_counts`), and the oracle of rank 2
answers 0 for rank 0. -/
theorem C1_has_in_flight_failing_input :
    Initialized rank2_after_collect ∧
    umap_find rank2_after_collect.rempi_pred_ranks_indices 0 = some 0 ∧
    rank2_after_collect.rempi_cp_gather_pc[0]? = some { next_clock := 0, send_count := 1 } ∧
    rank2_after_collect.rempi_recv_counts[0]? = some 0 ∧
    rempi_cp_has_in_flight_msgs rank2_after_collect 0 = some (rank2_after_collect, 0) :=
  ⟨by decide, by decide, by decide, by decide,
    (C1_has_in_flight_answers_le rank2_after_collect (by decide) 0 0 (by decide)).2.2
      { next_clock := 0, send_count := 1 } 0 (by decide) (by decide)⟩

/-- C6: on an initialised state, `rempi_cp_record_send` to a successor adds one
to the `send_count` of the slot of that successor and changes no other
`send_count`, no `next_clock`, not the snapshot, no receive counter and neither
map; `rempi_cp_record_recv` from a predecessor adds one to the receive counter
of that predecessor and changes no other receive counter, not the published
store, not the snapshot and neither map. -/
theorem C6_record_send_recv_frame (s : State) (hs : Initialized s) (clock : Nat) :
    (∀ dest_rank j, umap_find s.rempi_succ_ranks_indices dest_rank = some j →
      ∃ s1, rempi_cp_record_send s dest_rank clock = some s1 ∧
        j < (send_counts s).length ∧
        send_counts s1 = (send_counts s).set j ((send_counts s).getD j 0 + 1) ∧
        next_clocks s1 = next_clocks s ∧
        s1.rempi_cp_gather_pc = s.rempi_cp_gather_pc ∧
        s1.rempi_recv_counts = s.rempi_recv_counts ∧
        s1.rempi_pred_ranks_indices = s.rempi_pred_ranks_indices ∧
        s1.rempi_succ_ranks_indices = s.rempi_succ_ranks_indices) ∧
    (∀ rank i, umap_find s.rempi_pred_ranks_indices rank = some i →
      ∃ s2, rempi_cp_record_recv s rank clock = some s2 ∧
        i < s.rempi_recv_counts.length ∧
        s2.rempi_recv_counts = s.rempi_recv_counts.set i (s.rempi_recv_counts.getD i 0 + 1) ∧
        s2.rempi_cp_scatter_pc = s.rempi_cp_scatter_pc ∧
        s2.rempi_cp_gather_pc = s.rempi_cp_gather_pc ∧
        s2.rempi_pred_ranks_indices = s.rempi_pred_ranks_indices ∧
        s2.rempi_succ_ranks_indices = s.rempi_succ_ranks_indices) := by
  obtain ⟨_, hg, hrc, _, _, hsc, hp, hsu⟩ := hs
  constructor
  · intro dest_rank j hd
    have hj : j < s.rempi_cp_scatter_pc.length := by
      have := hsu _ (umap_find_mem hd); simp at this; omega
    have hsend : rempi_cp_record_send s dest_rank clock = some
        { s with rempi_cp_scatter_pc := (s.rempi_cp_scatter_pc.set j
            ⟨s.rempi_cp_scatter_pc[j].next_clock,
              s.rempi_cp_scatter_pc[j].send_count + 1⟩) } := by
      simp [rempi_cp_record_send, umap_subscript_present hd, List.getElem?_eq_getElem hj]
    refine ⟨_, hsend, by simpa [send_counts] using hj, ?_, ?_, rfl, rfl, rfl, rfl⟩
    · simp [send_counts, List.map_set, List.getD_eq_getElem?_getD, List.getElem?_eq_getElem hj]
    · simp only [next_clocks, List.map_set]
      apply List.ext_getElem?
      intro n
      by_cases hn : j = n
      · subst hn; simp [List.getElem?_set, hj, List.getElem?_eq_getElem hj]
      · simp [List.getElem?_set, hn]
  · intro rank i hr
    have hi : i < s.rempi_recv_counts.length := by
      have := hp _ (umap_find_mem hr); simp at this; omega
    have hrecv : rempi_cp_record_recv s rank clock = some
        { s with rempi_recv_counts := s.rempi_recv_counts.set i (s.rempi_recv_counts[i] + 1) } := by
      simp [rempi_cp_record_recv, umap_subscript_present hr, List.getElem?_eq_getElem hi]
    refine ⟨_, hrecv, hi, ?_, rfl, rfl, rfl, rfl⟩
    simp [List.getD_eq_getElem?_getD, List.getElem?_eq_getElem hi]

/-- C6 on rank 0 of the group of the source comment: a send to its successor 2
(slot 0) and a receive from its predecessor 2 (index 1). -/
theorem C6_record_send_recv_frame_witness :
    Initialized rank0_state ∧
    umap_find rank0_state.rempi_succ_ranks_indices 2 = some 0 ∧
    umap_find rank0_state.rempi_pred_ranks_indices 2 = some 1 ∧
    (∃ s1, rempi_cp_record_send rank0_state 2 5 = some s1 ∧
      0 < (send_counts rank0_state).length ∧
      send_counts s1 = (send_counts rank0_state).set 0 ((send_counts rank0_state).getD 0 0 + 1) ∧
      next_clocks s1 = next_clocks rank0_state ∧
      s1.rempi_cp_gather_pc = rank0_state.rempi_cp_gather_pc ∧
      s1.rempi_recv_counts = rank0_state.rempi_recv_counts ∧
      s1.rempi_pred_ranks_indices = rank0_state.rempi_pred_ranks_indices ∧
      s1.rempi_succ_ranks_indices = rank0_state.rempi_succ_ranks_indices) ∧
    (∃ s2, rempi_cp_record_recv rank0_state 2 5 = some s2 ∧
      1 < rank0_state.rempi_recv_counts.length ∧
      s2.rempi_recv_counts
        = rank0_state.rempi_recv_counts.set 1 (rank0_state.rempi_recv_counts.getD 1 0 + 1) ∧
      s2.rempi_cp_scatter_pc = rank0_state.rempi_cp_scatter_pc ∧
      s2.rempi_cp_gather_pc = rank0_state.rempi_cp_gather_pc ∧
      s2.rempi_pred_ranks_indices = rank0_state.rempi_pred_ranks_indices ∧
      s2.rempi_succ_ranks_indices = rank0_state.rempi_succ_ranks_indices) :=
  ⟨by decide, by decide, by decide,
    (C6_record_send_recv_frame rank0_state (by decide) 5).1 2 0 (by decide),
    (C6_record_send_recv_frame rank0_state (by decide) 5).2 2 1 (by decide)⟩

theorem get_diagnostics_succ (get : Nat → Nat → Int × Option rempi_cp_prop_clock)
    (pr pi : List Nat) (n : Nat) :
    get_diagnostics get pr pi (n + 1) = get_diagnostics get pr pi n ++
      (if (get (pr.getD n 0) (pi.getD n 0)).1 ≠ MPI_SUCCESS then ["PMPI_Get failed\n"] else []) := by
  simp only [get_diagnostics, List.range_succ, List.filter_append, List.map_append,
    List.filter_cons, List.filter_nil]
  by_cases hc : (get (pr.getD n 0) (pi.getD n 0)).1 = MPI_SUCCESS
  · rw [if_neg (by simpa using hc), if_neg (by simpa using hc)]; rfl
  · rw [if_pos (by simpa using hc), if_pos (by simpa using hc)]; rfl

theorem gather_fold (get : Nat → Nat → Int × Option rempi_cp_prop_clock)
    (pr pi : List Nat) (g0 : List rempi_cp_prop_clock) (n : Nat)
    (hpr : n ≤ pr.length) (hpi : n ≤ pi.length) (hg : n ≤ g0.length) :
    ∃ g, (List.range n).foldl (gather_clocks_body get pr pi) (some (g0, []))
        = some (g, get_diagnostics get pr pi n) ∧
      g.length = g0.length ∧
      ∀ i, g[i]? = if i < n then
          (match (get (pr.getD i 0) (pi.getD i 0)).2 with
            | some pc => some pc
            | none => g0[i]?)
        else g0[i]? := by
  induction n with
  | zero => exact ⟨g0, by simp [get_diagnostics], rfl, by simp⟩
  | succ n ih =>
    obtain ⟨g, hfold, hlen, hget⟩ := ih (by omega) (by omega) (by omega)
    have h1 : pr[n]? = some (pr.getD n 0) := by
      rw [List.getD_eq_getElem?_getD, List.getElem?_eq_getElem (by omega)]; rfl
    have h2 : pi[n]? = some (pi.getD n 0) := by
      rw [List.getD_eq_getElem?_getD, List.getElem?_eq_getElem (by omega)]; rfl
    have hn : n < g.length := by omega
    rw [List.range_succ, List.foldl_append, hfold]
    simp only [List.foldl_cons, List.foldl_nil, gather_clocks_body, h1, h2, hn, if_true]
    rcases hres : (get (pr.getD n 0) (pi.getD n 0)).2 with _ | pc
    · refine ⟨g, ?_, hlen, ?_⟩
      · rw [get_diagnostics_succ]
        by_cases hc : (get (pr.getD n 0) (pi.getD n 0)).1 = MPI_SUCCESS
        · rw [if_neg (by simpa using hc), if_neg (by simpa using hc)]; simp
        · rw [if_pos (by simpa using hc), if_pos (by simpa using hc)]
      · intro i
        rw [hget i]
        by_cases hi : i < n
        · rw [if_pos hi, if_pos (Nat.lt_succ_of_lt hi)]
        · by_cases hin : i = n
          · subst hin
            rw [if_neg hi, if_pos (Nat.lt_succ_self i), hres]
          · have : ¬ i < n + 1 := by omega
            rw [if_neg hi, if_neg this]
    · refine ⟨g.set n pc, ?_, by simp [hlen], ?_⟩
      · rw [get_diagnostics_succ]
        by_cases hc : (get (pr.getD n 0) (pi.getD n 0)).1 = MPI_SUCCESS
        · rw [if_neg (by simpa using hc), if_neg (by simpa using hc)]; simp
        · rw [if_pos (by simpa using hc), if_pos (by simpa using hc)]
      · intro i
        by_cases hin : i = n
        · subst hin
          rw [if_pos (Nat.lt_succ_self i), hres, List.getElem?_set_self hn]
        · have hne : ¬ n = i := fun h => hin h.symm
          rw [List.getElem?_set_ne hne, hget i]
          by_cases hi : i < n
          · rw [if_pos hi, if_pos (Nat.lt_succ_of_lt hi)]
          · have : ¬ i < n + 1 := by omega
            rw [if_neg hi, if_neg this]

/-- What `rempi_cp_gather_clocks` does on an initialised state: it returns, the
snapshot entry of every predecessor index whose read delivered data holds that
data and the other entries are kept, and `stderr` receives the diagnostics. -/
theorem gather_clocks_spec (get : Nat → Nat → Int × Option rempi_cp_prop_clock)
    (s : State) (hs : Initialized s) :
    ∃ g, (∀ flush_ret, rempi_cp_gather_clocks get flush_ret s
        = some ({ s with rempi_cp_gather_pc := g },
            get_diagnostics get s.rempi_pred_ranks s.rempi_pred_indices s.rempi_pred_rank_count
              ++ flush_diagnostics flush_ret)) ∧
      g.length = s.rempi_cp_gather_pc.length ∧
      ∀ i, g[i]? = if i < s.rempi_pred_rank_count then
          (match (get (s.rempi_pred_ranks.getD i 0) (s.rempi_pred_indices.getD i 0)).2 with
            | some pc => some pc
            | none => s.rempi_cp_gather_pc[i]?)
        else s.rempi_cp_gather_pc[i]? := by
  obtain ⟨_, hg, _, hpr, hpi, _, _, _⟩ := hs
  obtain ⟨g, hfold, hlen, hget⟩ := gather_fold get s.rempi_pred_ranks s.rempi_pred_indices
    s.rempi_cp_gather_pc s.rempi_pred_rank_count (by omega) (by omega) (by omega)
  refine ⟨g, ?_, hlen, hget⟩
  intro flush_ret
  simp only [rempi_cp_gather_clocks, hfold, flush_diagnostics]
  by_cases hf : flush_ret = MPI_SUCCESS <;> simp [hf]

theorem get_diagnostics_eq_nil (get : Nat → Nat → Int × Option rempi_cp_prop_clock)
    (pr pi : List Nat) (n : Nat) :
    get_diagnostics get pr pi n = [] ↔
      ∀ i, i < n → (get (pr.getD i 0) (pi.getD i 0)).1 = MPI_SUCCESS := by
  simp only [get_diagnostics, List.map_eq_nil_iff, List.filter_eq_nil_iff, List.mem_range]
  constructor
  · intro h i hi
    have := h i hi
    simpa using this
  · intro h i hi
    simpa using h i hi


/-- C7, as stated, fails on rank 0 of the group of the source comment
(predecessors 1 and 2, successor 2) called with rank 7, which is in neither map:
`rempi_cp_record_recv(7)` is not rejected, it inserts 7 into the predecessor map
and increments the receive counter of index 0 (the counter of predecessor 1);
`rempi_cp_record_send(7)` inserts 7 into the successor map and increments the
`send_count` of slot 0; `rempi_cp_has_in_flight_msgs(7)` returns an answer. -/
theorem C7_absent_rank_not_rejected :
    umap_find rank0_state.rempi_pred_ranks_indices 7 = none ∧
    umap_find rank0_state.rempi_succ_ranks_indices 7 = none ∧
    rank0_state.rempi_recv_counts = [0, 0] ∧
    (rempi_cp_record_recv rank0_state 7 0).map (fun s => s.rempi_recv_counts) = some [1, 0] ∧
    (rempi_cp_record_recv rank0_state 7 0).map (fun s => s.rempi_pred_ranks_indices)
      = some [(1, 0), (2, 1), (7, 0)] ∧
    send_counts rank0_state = [0] ∧
    (rempi_cp_record_send rank0_state 7 0).map send_counts = some [1] ∧
    (rempi_cp_record_send rank0_state 7 0).map (fun s => s.rempi_succ_ranks_indices)
      = some [(2, 0), (7, 0)] ∧
    (rempi_cp_has_in_flight_msgs rank0_state 7).map Prod.snd = some 1 := by
  decide

/-- C7 amended: on an initialised state, a rank missing from the predecessor
map (for `rempi_cp_record_recv` and `rempi_cp_has_in_flight_msgs`, when the
process has a predecessor) or from the successor map (for
`rempi_cp_record_send`, when the process has a successor) is not rejected: the
lookup inserts the rank with index 0 and the call proceeds on index 0.
`record_recv` increments receive counter 0, `has_in_flight_msgs` answers from
snapshot entry 0 and receive counter 0, `record_send` increments the
`send_count` of slot 0; nothing else changes. -/
theorem C7_absent_rank_uses_index_zero (s : State) (hs : Initialized s) (clock : Nat) :
    (∀ rank, umap_find s.rempi_pred_ranks_indices rank = none →
      0 < s.rempi_pred_rank_count →
      (∃ rc, s.rempi_recv_counts[0]? = some rc ∧
        rempi_cp_record_recv s rank clock = some
          { s with rempi_pred_ranks_indices := s.rempi_pred_ranks_indices ++ [(rank, 0)],
                   rempi_recv_counts := s.rempi_recv_counts.set 0 (rc + 1) }) ∧
      (∃ pc rc, s.rempi_cp_gather_pc[0]? = some pc ∧ s.rempi_recv_counts[0]? = some rc ∧
        rempi_cp_has_in_flight_msgs s rank = some
          ({ s with rempi_pred_ranks_indices := s.rempi_pred_ranks_indices ++ [(rank, 0)] },
           if pc.send_count ≤ rc then 1 else 0))) ∧
    (∀ dest_rank, umap_find s.rempi_succ_ranks_indices dest_rank = none →
      0 < s.rempi_succ_rank_count →
      ∃ pc, s.rempi_cp_scatter_pc[0]? = some pc ∧
        rempi_cp_record_send s dest_rank clock = some
          { s with rempi_succ_ranks_indices := s.rempi_succ_ranks_indices ++ [(dest_rank, 0)],
                   rempi_cp_scatter_pc := s.rempi_cp_scatter_pc.set 0
                     ⟨pc.next_clock, pc.send_count + 1⟩ }) := by
  obtain ⟨_, hg, hrc, _, _, hsc, _, _⟩ := hs
  constructor
  · intro rank hrank hpred
    have h1 : 0 < s.rempi_cp_gather_pc.length := by omega
    have h2 : 0 < s.rempi_recv_counts.length := by omega
    refine ⟨⟨s.rempi_recv_counts[0], List.getElem?_eq_getElem h2, ?_⟩,
      ⟨s.rempi_cp_gather_pc[0], s.rempi_recv_counts[0], List.getElem?_eq_getElem h1,
        List.getElem?_eq_getElem h2, ?_⟩⟩
    · simp [rempi_cp_record_recv, umap_subscript_absent hrank, List.getElem?_eq_getElem h2]
    · simp [rempi_cp_has_in_flight_msgs, umap_subscript_absent hrank,
        List.getElem?_eq_getElem h1, List.getElem?_eq_getElem h2]
  · intro dest_rank hdest hsucc
    have h3 : 0 < s.rempi_cp_scatter_pc.length := by omega
    refine ⟨s.rempi_cp_scatter_pc[0], List.getElem?_eq_getElem h3, ?_⟩
    simp [rempi_cp_record_send, umap_subscript_absent hdest, List.getElem?_eq_getElem h3]

/-- C7 amended, on rank 0 of the group of the source comment with the missing
rank 7. -/
theorem C7_absent_rank_uses_index_zero_witness :
    Initialized rank0_state ∧
    umap_find rank0_state.rempi_pred_ranks_indices 7 = none ∧
    umap_find rank0_state.rempi_succ_ranks_indices 7 = none ∧
    0 < rank0_state.rempi_pred_rank_count ∧ 0 < rank0_state.rempi_succ_rank_count ∧
    (∃ rc, rank0_state.rempi_recv_counts[0]? = some rc ∧
      rempi_cp_record_recv rank0_state 7 3 = some
        { rank0_state with
          rempi_pred_ranks_indices := rank0_state.rempi_pred_ranks_indices ++ [(7, 0)],
          rempi_recv_counts := rank0_state.rempi_recv_counts.set 0 (rc + 1) }) ∧
    (∃ pc, rank0_state.rempi_cp_scatter_pc[0]? = some pc ∧
      rempi_cp_record_send rank0_state 7 3 = some
        { rank0_state with
          rempi_succ_ranks_indices := rank0_state.rempi_succ_ranks_indices ++ [(7, 0)],
          rempi_cp_scatter_pc := rank0_state.rempi_cp_scatter_pc.set 0
            ⟨pc.next_clock, pc.send_count + 1⟩ }) :=
  ⟨by decide, by decide, by decide, by decide, by decide,
    ((C7_absent_rank_uses_index_zero rank0_state (by decide) 3).1 7 (by decide) (by decide)).1,
    (C7_absent_rank_uses_index_zero rank0_state (by decide) 3).2 7 (by decide) (by decide)⟩

/-- C9, as stated, fails on rank 2 of the group of three.  When every read
fails, and when the reads are issued but the flush fails and delivers nothing,
the call returns to its caller all the same, with the old snapshot and a
diagnostic on `stderr`; the state it leaves is the state a successful round
leaves whose predecessors publish what the snapshot already holds; the caller
obtains no status and the oracle answers afterwards. -/
theorem C9_failure_not_surfaced :
    rempi_cp_gather_clocks get_fails MPI_SUCCESS rank2_state
      = some (rank2_state, ["PMPI_Get failed\n", "PMPI_Get failed\n"]) ∧
    rempi_cp_gather_clocks get_pending MPI_ERR_OTHER rank2_state
      = some (rank2_state, ["PMPI_Win_flush_local_all failed\n"]) ∧
    rempi_cp_gather_clocks get_unchanged MPI_SUCCESS rank2_state = some (rank2_state, []) ∧
    (rempi_cp_has_in_flight_msgs rank2_state 0).map Prod.snd = some 1 := by
  decide

/-- C9 amended: on an initialised state `rempi_cp_gather_clocks` always returns
to its caller, with or without failures, and hands back no status.  A failure
is reported on `stderr` only: one line `PMPI_Get failed` per failing read, then
the line `PMPI_Win_flush_local_all failed` when the flush fails, and nothing is
written exactly when nothing failed. -/
theorem C9_gather_clocks_reports_on_stderr (s : State) (hs : Initialized s)
    (PMPI_Get : Nat → Nat → Int × Option rempi_cp_prop_clock) (flush_ret : Int) :
    ∃ s1 err, rempi_cp_gather_clocks PMPI_Get flush_ret s = some (s1, err) ∧
      err = get_diagnostics PMPI_Get s.rempi_pred_ranks s.rempi_pred_indices
              s.rempi_pred_rank_count ++ flush_diagnostics flush_ret ∧
      (err = [] ↔ flush_ret = MPI_SUCCESS ∧ ∀ i, i < s.rempi_pred_rank_count →
        (PMPI_Get (s.rempi_pred_ranks.getD i 0) (s.rempi_pred_indices.getD i 0)).1
          = MPI_SUCCESS) := by
  obtain ⟨g, hall, _, _⟩ := gather_clocks_spec PMPI_Get s hs
  refine ⟨_, _, hall flush_ret, rfl, ?_⟩
  rw [List.append_eq_nil, get_diagnostics_eq_nil]
  constructor
  · rintro ⟨h1, h2⟩
    refine ⟨?_, h1⟩
    by_contra hne
    simp [flush_diagnostics, hne] at h2
  · rintro ⟨h1, h2⟩
    exact ⟨h2, by simp [flush_diagnostics, h1]⟩

/-- C9 amended, on rank 2 of the group of three in a round whose reads are issued
and whose flush fails. -/
theorem C9_gather_clocks_reports_on_stderr_witness :
    Initialized rank2_state ∧
    ∃ s1 err, rempi_cp_gather_clocks get_pending MPI_ERR_OTHER rank2_state = some (s1, err) ∧
      err = get_diagnostics get_pending rank2_state.rempi_pred_ranks
              rank2_state.rempi_pred_indices rank2_state.rempi_pred_rank_count
            ++ flush_diagnostics MPI_ERR_OTHER ∧
      (err = [] ↔ MPI_ERR_OTHER = MPI_SUCCESS ∧ ∀ i, i < rank2_state.rempi_pred_rank_count →
        (get_pending (rank2_state.rempi_pred_ranks.getD i 0)
          (rank2_state.rempi_pred_indices.getD i 0)).1 = MPI_SUCCESS) :=
  ⟨by decide, C9_gather_clocks_reports_on_stderr rank2_state (by decide) get_pending MPI_ERR_OTHER⟩

/-! ## Step 1: flags and counts -/

theorem flags_fold_length (ps : List Nat) (f0 : List Nat) :
    (ps.foldl (fun flags r => flags.set r 1) f0).length = f0.length := by
  induction ps generalizing f0 with
  | nil => rfl
  | cons p ps ih => simp [List.foldl_cons, ih]

theorem flags_fold_getD (ps : List Nat) (f0 : List Nat) (r : Nat) (hr : r < f0.length) :
    (ps.foldl (fun flags r => flags.set r 1) f0).getD r 0
      = if r ∈ ps then 1 else f0.getD r 0 := by
  induction ps generalizing f0 with
  | nil => simp
  | cons p ps ih =>
    rw [List.foldl_cons, ih (f0.set p 1) (by simpa using hr)]
    by_cases h1 : r ∈ ps
    · simp [h1]
    · by_cases h2 : r = p
      · subst h2
        simp [h1, List.getD_eq_getElem?_getD, hr]
      · have h3 : ¬ p = r := fun h => h2 h.symm
        simp [h1, h2, List.getD_eq_getElem?_getD, List.getElem?_set_ne h3]

theorem remote_rank_flags_length (n : Nat) (ps : List Nat) :
    (remote_rank_flags n ps).length = n := by
  simp [remote_rank_flags, flags_fold_length]

theorem remote_rank_flags_getD (n : Nat) (ps : List Nat) (r : Nat) (hr : r < n) :
    (remote_rank_flags n ps).getD r 0 = if r ∈ ps then 1 else 0 := by
  rw [remote_rank_flags, flags_fold_getD _ _ _ (by simpa using hr)]
  simp [List.getD_eq_getElem?_getD, hr]

theorem flags_sum (n : Nat) (l : List (List Nat)) (r : Nat) (hr : r < n) :
    ((l.map (remote_rank_flags n)).map (fun b => b.getD r 0)).sum
      = l.countP (fun ps => decide (r ∈ ps)) := by
  induction l with
  | nil => rfl
  | cons ps l ih =>
    simp only [List.map_cons, List.sum_cons, ih, remote_rank_flags_getD n ps r hr,
      List.countP_cons]
    by_cases h : r ∈ ps <;> simp [h, Nat.add_comm]

theorem succ_rank_counts_length (preds : List (List Nat)) :
    (succ_rank_counts preds).length = preds.length := by
  simp [succ_rank_counts, PMPI_Allreduce_sum]

theorem succ_rank_counts_getElem? (preds : List (List Nat)) (r : Nat) (hr : r < preds.length) :
    (succ_rank_counts preds)[r]? = some (listing_count preds r) := by
  simp only [succ_rank_counts, PMPI_Allreduce_sum, listing_count]
  rw [List.getElem?_map, List.getElem?_range hr]
  simp only [Option.map_some']
  rw [flags_sum _ _ _ hr]

theorem listing_count_le (preds : List (List Nat)) (r : Nat) :
    listing_count preds r ≤ preds.length := List.countP_le_length _

/-! ## Step 2: the identity messages -/

theorem gather_block (ps : List Nat) (hps : ps.Nodup) (src r : Nat) :
    ((gather_send_dests ps).filter (fun d => decide (d = r))).map (fun _ => src)
      = if r ∈ ps then [src] else [] := by
  induction ps with
  | nil => simp [gather_send_dests]
  | cons p ps ih =>
    have hp : p ∉ ps := (List.nodup_cons.1 hps).1
    have ih1 := ih (List.nodup_cons.1 hps).2
    simp only [gather_send_dests] at ih1 ⊢
    by_cases h : p = r
    · subst h
      simp [List.filter_cons, hp] at ih1 ⊢
      simpa [hp] using ih1
    · have h2 : ¬ r = p := fun e => h e.symm
      simp [List.filter_cons, h, h2, ih1]

theorem gather_mailbox_from_length (l : List (List Nat)) (hl : ∀ ps ∈ l, ps.Nodup)
    (src r : Nat) :
    (gather_mailbox_from l src r).length = l.countP (fun ps => decide (r ∈ ps)) := by
  induction l generalizing src with
  | nil => rfl
  | cons ps l ih =>
    simp only [gather_mailbox_from, List.length_append, List.countP_cons]
    rw [gather_block ps (hl ps (List.mem_cons_self _ _)),
      ih (fun q hq => hl q (List.mem_cons_of_mem _ hq))]
    by_cases h : r ∈ ps <;> simp [h, Nat.add_comm]

theorem gather_mailbox_from_mem (l : List (List Nat)) (hl : ∀ ps ∈ l, ps.Nodup)
    (src r a : Nat) :
    a ∈ gather_mailbox_from l src r ↔ ∃ k ps, l[k]? = some ps ∧ r ∈ ps ∧ a = src + k := by
  induction l generalizing src with
  | nil => simp [gather_mailbox_from]
  | cons ps l ih =>
    simp only [gather_mailbox_from, List.mem_append]
    rw [gather_block ps (hl ps (List.mem_cons_self _ _)),
      ih (fun q hq => hl q (List.mem_cons_of_mem _ hq))]
    constructor
    · rintro (h | ⟨k, qs, h1, h2, h3⟩)
      · by_cases hr : r ∈ ps
        · simp [hr] at h
          exact ⟨0, ps, by simp, hr, by simpa using h⟩
        · simp [hr] at h
      · exact ⟨k + 1, qs, by simpa using h1, h2, by omega⟩
    · rintro ⟨k, qs, h1, h2, h3⟩
      cases k with
      | zero =>
        simp at h1
        subst h1
        left
        simp [h2, h3]
      | succ k =>
        right
        exact ⟨k, qs, by simpa using h1, h2, by omega⟩

theorem gather_mailbox_from_sorted (l : List (List Nat)) (hl : ∀ ps ∈ l, ps.Nodup)
    (src r : Nat) : (gather_mailbox_from l src r).Pairwise (fun a b => a < b) := by
  induction l generalizing src with
  | nil => simp [gather_mailbox_from]
  | cons ps l ih =>
    have hl1 : ∀ q ∈ l, q.Nodup := fun q hq => hl q (List.mem_cons_of_mem _ hq)
    simp only [gather_mailbox_from]
    rw [gather_block ps (hl ps (List.mem_cons_self _ _)), List.pairwise_append]
    refine ⟨by by_cases h : r ∈ ps <;> simp [h], ih hl1 (src + 1), ?_⟩
    intro a ha b hb
    obtain ⟨k, _, _, _, hk⟩ := (gather_mailbox_from_mem l hl1 (src + 1) r b).1 hb
    by_cases h : r ∈ ps
    · simp [h] at ha
      omega
    · simp [h] at ha

theorem gather_mailbox_length (preds : List (List Nat)) (hv : ValidTopology preds) (r : Nat) :
    (gather_mailbox preds r).length = listing_count preds r :=
  gather_mailbox_from_length preds (fun ps hps => (hv ps hps).1) 0 r

theorem gather_mailbox_mem (preds : List (List Nat)) (hv : ValidTopology preds) (r a : Nat) :
    a ∈ gather_mailbox preds r ↔ ∃ ps, preds[a]? = some ps ∧ r ∈ ps := by
  rw [gather_mailbox, gather_mailbox_from_mem preds (fun ps hps => (hv ps hps).1) 0 r a]
  constructor
  · rintro ⟨k, ps, h1, h2, h3⟩
    have : a = k := by omega
    subst this
    exact ⟨ps, h1, h2⟩
  · rintro ⟨ps, h1, h2⟩
    exact ⟨a, ps, h1, h2, by omega⟩

theorem gather_mailbox_sorted (preds : List (List Nat)) (hv : ValidTopology preds) (r : Nat) :
    (gather_mailbox preds r).Pairwise (fun a b => a < b) :=
  gather_mailbox_from_sorted preds (fun ps hps => (hv ps hps).1) 0 r

theorem gather_mailbox_nodup (preds : List (List Nat)) (hv : ValidTopology preds) (r : Nat) :
    (gather_mailbox preds r).Nodup :=
  (gather_mailbox_sorted preds hv r).imp (fun h => Nat.ne_of_lt h)

/-! ## Steps 3 and 4 -/

theorem all_some_map {α β : Type} (l : List α) (f : α → Option β) (g : α → β)
    (h : ∀ x ∈ l, f x = some (g x)) : all_some (l.map f) = some (l.map g) := by
  induction l with
  | nil => rfl
  | cons a l ih =>
    simp only [List.map_cons, h a (List.mem_cons_self _ _), all_some,
      ih (fun x hx => h x (List.mem_cons_of_mem _ hx))]

theorem succ_indices_loop_length (n : Nat) (buf : List Nat) :
    (succ_indices_loop n buf).length = buf.length := by
  induction n with
  | zero => simp [succ_indices_loop]
  | succ n ih =>
    simp only [succ_indices_loop] at ih ⊢
    rw [List.range_succ, List.foldl_append]
    simp [ih]

theorem succ_indices_loop_getElem? (n : Nat) (buf : List Nat) (hn : n ≤ buf.length) (j : Nat) :
    (succ_indices_loop n buf)[j]? = if j < n then some j else buf[j]? := by
  induction n with
  | zero => simp [succ_indices_loop]
  | succ n ih =>
    have ih1 := ih (by omega)
    have hl := succ_indices_loop_length n buf
    simp only [succ_indices_loop] at ih1 hl ⊢
    rw [List.range_succ, List.foldl_append]
    simp only [List.foldl_cons, List.foldl_nil]
    by_cases hj : j = n
    · subst hj
      rw [List.getElem?_set_self (by omega), if_pos (Nat.lt_succ_self j)]
    · have hne : ¬ n = j := fun h => hj h.symm
      rw [List.getElem?_set_ne hne, ih1]
      by_cases h1 : j < n
      · rw [if_pos h1, if_pos (Nat.lt_succ_of_lt h1)]
      · have : ¬ j < n + 1 := by omega
        rw [if_neg h1, if_neg this]

theorem arrival_length (preds : List (List Nat)) (hv : ValidTopology preds)
    (arrival : Nat → List Nat) (ha : ValidArrival preds arrival) (r : Nat)
    (hr : r < preds.length) : (arrival r).length = listing_count preds r := by
  rw [(ha r hr).length_eq, gather_mailbox_length preds hv]

theorem sorted_length (qsort : Qsort) (hq : QsortPermutes qsort) (preds : List (List Nat))
    (hv : ValidTopology preds) (arrival : Nat → List Nat) (ha : ValidArrival preds arrival)
    (r : Nat) (hr : r < preds.length) :
    (qsort compare (arrival r)).length = listing_count preds r := by
  rw [(hq _).length_eq, arrival_length preds hv arrival ha r hr]

theorem sorted_mem (qsort : Qsort) (hq : QsortPermutes qsort) (preds : List (List Nat))
    (hv : ValidTopology preds) (arrival : Nat → List Nat) (ha : ValidArrival preds arrival)
    (r : Nat) (hr : r < preds.length) (a : Nat) :
    a ∈ qsort compare (arrival r) ↔ ∃ ps, preds[a]? = some ps ∧ r ∈ ps := by
  rw [(hq _).mem_iff, (ha r hr).mem_iff, gather_mailbox_mem preds hv]

theorem sorted_nodup (qsort : Qsort) (hq : QsortPermutes qsort) (preds : List (List Nat))
    (hv : ValidTopology preds) (arrival : Nat → List Nat) (ha : ValidArrival preds arrival)
    (r : Nat) (hr : r < preds.length) : (qsort compare (arrival r)).Nodup :=
  (hq _).nodup_iff.2 ((ha r hr).nodup_iff.2 (gather_mailbox_nodup preds hv r))

theorem remote_indexing_local_eq (qsort : Qsort) (preds : List (List Nat))
    (hv : ValidTopology preds) (arrival : Nat → List Nat) (ha : ValidArrival preds arrival)
    (r : Nat) (hr : r < preds.length) :
    remote_indexing_local qsort preds (arrival r) r = some (local_result qsort preds arrival r) := by
  have hc := arrival_length preds hv arrival ha r hr
  simp only [remote_indexing_local, succ_rank_counts_getElem? preds r hr, gather_recv,
    local_result, ← hc, Nat.le_refl, if_true, List.take_length, List.take_left, List.drop_left]

theorem remote_indexing_locals_eq (qsort : Qsort) (preds : List (List Nat))
    (hv : ValidTopology preds) (arrival : Nat → List Nat) (ha : ValidArrival preds arrival) :
    remote_indexing_locals qsort preds arrival
      = some ((List.range preds.length).map (local_result qsort preds arrival)) := by
  rw [remote_indexing_locals]
  exact all_some_map _ _ _ (fun r hr =>
    remote_indexing_local_eq qsort preds hv arrival ha r (List.mem_range.1 hr))

theorem getElem?_eq_some_getD {α : Type} (l : List α) (d : α) {i : Nat} (h : i < l.length) :
    l[i]? = some (l.getD i d) := by
  rw [List.getD_eq_getElem l d h, List.getElem?_eq_getElem h]

theorem singleton_of_nodup_mem {l : List Nat} {j : Nat} (hn : l.Nodup)
    (h : ∀ x, x ∈ l ↔ x = j) : l = [j] := by
  cases l with
  | nil => exact absurd ((h j).2 rfl) (List.not_mem_nil j)
  | cons a t =>
    have ha : a = j := (h a).1 (List.mem_cons_self _ _)
    subst ha
    have ht : t = [] := by
      cases t with
      | nil => rfl
      | cons b t =>
        have hb : b = a := (h b).1 (List.mem_cons_of_mem _ (List.mem_cons_self _ _))
        subst hb
        exact absurd (List.mem_cons_self _ _) (List.nodup_cons.1 hn).1
    rw [ht]

theorem range_filter_index (σ : List Nat) (hσ : σ.Nodup) (a : Nat) (ha : a ∈ σ) :
    (List.range σ.length).filter (fun j => decide (σ[j]? = some a)) = [σ.indexOf a] := by
  apply singleton_of_nodup_mem ((List.nodup_range _).filter _)
  intro x
  simp only [List.mem_filter, List.mem_range, decide_eq_true_eq]
  constructor
  · rintro ⟨hx, hget⟩
    have h1 : σ[x] = a := by
      rw [List.getElem?_eq_getElem hx] at hget
      exact Option.some.inj hget
    rw [← h1]
    exact (List.indexOf_getElem hσ x hx).symm
  · intro hx
    subst hx
    have hlt : σ.indexOf a < σ.length := List.indexOf_lt_length.2 ha
    refine ⟨hlt, ?_⟩
    rw [List.getElem?_eq_getElem hlt, List.getElem_indexOf]

theorem range_filter_absent (σ : List Nat) (a : Nat) (ha : a ∉ σ) :
    (List.range σ.length).filter (fun j => decide (σ[j]? = some a)) = [] := by
  rw [List.filter_eq_nil_iff]
  intro x _ hget
  simp only [decide_eq_true_eq] at hget
  exact ha (List.getElem?_mem hget)

theorem scatter_channel_eq (qsort : Qsort) (hq : QsortPermutes qsort)
    (preds : List (List Nat)) (hv : ValidTopology preds) (arrival : Nat → List Nat)
    (ha : ValidArrival preds arrival) (b : Nat) (hb : b < preds.length) (a : Nat) :
    scatter_channel (local_result qsort preds arrival b) a
      = if a ∈ qsort compare (arrival b) then [(qsort compare (arrival b)).indexOf a]
        else [] := by
  have hlen := sorted_length qsort hq preds hv arrival ha b hb
  have hnd := sorted_nodup qsort hq preds hv arrival ha b hb
  have hfilter : (List.range (listing_count preds b)).filter
      (fun j => decide ((local_result qsort preds arrival b).succ_ranks[j]? = some a))
      = (List.range (qsort compare (arrival b)).length).filter
          (fun j => decide ((qsort compare (arrival b))[j]? = some a)) := by
    rw [hlen]
    apply List.filter_congr
    intro j hj
    have hj1 : j < (qsort compare (arrival b)).length := by
      rw [hlen]; exact List.mem_range.1 hj
    simp only [local_result, List.getElem?_append_left hj1]
  simp only [scatter_channel]
  have hcount : (local_result qsort preds arrival b).succ_rank_count = listing_count preds b := rfl
  rw [hcount, hfilter]
  by_cases hmem : a ∈ qsort compare (arrival b)
  · rw [range_filter_index _ hnd a hmem, if_pos hmem]
    have hidx : (qsort compare (arrival b)).indexOf a < listing_count preds b := by
      rw [← hlen]; exact List.indexOf_lt_length.2 hmem
    have hsi : (local_result qsort preds arrival b).succ_indices[(qsort compare (arrival b)).indexOf a]?
        = some ((qsort compare (arrival b)).indexOf a) := by
      simp only [local_result]
      rw [succ_indices_loop_getElem? _ _
        (by rw [succ_rank_counts_length]; exact listing_count_le preds b), if_pos hidx]
    simp [hsi]
  · rw [range_filter_absent _ a hmem, if_neg hmem]
    rfl

theorem not_mem_take_of_nodup {ps : List Nat} (hps : ps.Nodup) {i b : Nat}
    (hi : ps[i]? = some b) : b ∉ ps.take i := by
  have hsplit : ps.take i ++ ps.drop i = ps := List.take_append_drop i ps
  have hnd : (ps.take i ++ ps.drop i).Nodup := by rw [hsplit]; exact hps
  have hdrop : b ∈ ps.drop i := by
    have h0 : (ps.drop i)[0]? = some b := by
      rw [List.getElem?_drop]
      simpa using hi
    exact List.getElem?_mem h0
  intro hmem
  exact (List.nodup_append.1 hnd).2.2 hmem hdrop

theorem remote_indexing_finish_eq (qsort : Qsort) (hq : QsortPermutes qsort)
    (preds : List (List Nat)) (hv : ValidTopology preds) (arrival : Nat → List Nat)
    (ha : ValidArrival preds arrival) (a : Nat) (hlt : a < preds.length) :
    remote_indexing_finish ((List.range preds.length).map (local_result qsort preds arrival))
      preds a = some (indexing_result qsort preds arrival a) := by
  have hloc : ∀ r, r < preds.length →
      ((List.range preds.length).map (local_result qsort preds arrival))[r]?
        = some (local_result qsort preds arrival r) := by
    intro r hr
    rw [List.getElem?_map, List.getElem?_range hr]; rfl
  have hpa : preds[a]? = some (preds.getD a []) := getElem?_eq_some_getD preds [] hlt
  have hmem_preds : preds.getD a [] ∈ preds := List.getElem?_mem hpa
  obtain ⟨hnd, hrange⟩ := hv _ hmem_preds
  simp only [remote_indexing_finish, hloc a hlt]
  have hrecv : ∀ i ∈ List.range (preds.getD a []).length,
      scatter_recv (fun src =>
          match ((List.range preds.length).map (local_result qsort preds arrival))[src]? with
          | some ls => scatter_channel ls a
          | none => []) (preds.getD a []) i
        = some ((qsort compare (arrival ((preds.getD a []).getD i 0))).indexOf a) := by
    intro i hi
    have hi1 : i < (preds.getD a []).length := List.mem_range.1 hi
    have hget : (preds.getD a [])[i]? = some ((preds.getD a []).getD i 0) :=
      getElem?_eq_some_getD _ 0 hi1
    have hbmem : (preds.getD a []).getD i 0 ∈ preds.getD a [] := List.getElem?_mem hget
    have hb : (preds.getD a []).getD i 0 < preds.length := hrange _ hbmem
    have hcount : ((preds.getD a []).take i).count ((preds.getD a []).getD i 0) = 0 :=
      List.count_eq_zero.2 (not_mem_take_of_nodup hnd hget)
    have hin : a ∈ qsort compare (arrival ((preds.getD a []).getD i 0)) :=
      (sorted_mem qsort hq preds hv arrival ha _ hb a).2 ⟨_, hpa, hbmem⟩
    simp only [scatter_recv, hget, hloc _ hb, hcount,
      scatter_channel_eq qsort hq preds hv arrival ha _ hb a, if_pos hin]
    rfl
  rw [all_some_map _ _ _ hrecv]
  rfl

theorem valid_topology_check (preds : List (List Nat)) (hv : ValidTopology preds) :
    preds.all (fun ps => ps.all (fun r => decide (r < preds.length))) = true := by
  simp only [List.all_eq_true, decide_eq_true_eq]
  exact fun ps hps r hr => (hv ps hps).2 r hr

/-- On a group whose predecessor lists name ranks of the group and repeat none,
the collective completes on every rank, whatever the arrival order, and its
results are the closed forms. -/
theorem rempi_cp_remote_indexing_eq (qsort : Qsort) (hq : QsortPermutes qsort)
    (preds : List (List Nat)) (hv : ValidTopology preds) (arrival : Nat → List Nat)
    (ha : ValidArrival preds arrival) :
    rempi_cp_remote_indexing qsort preds arrival
      = some ((List.range preds.length).map (indexing_result qsort preds arrival)) := by
  simp only [rempi_cp_remote_indexing, valid_topology_check preds hv, if_true,
    remote_indexing_locals_eq qsort preds hv arrival ha]
  exact all_some_map _ _ _ (fun r hr =>
    remote_indexing_finish_eq qsort hq preds hv arrival ha r (List.mem_range.1 hr))

/-! ## The sort -/

theorem qsort_insert_perm (cmp : Nat → Nat → Int) (x : Nat) (l : List Nat) :
    (qsort_insert cmp x l).Perm (x :: l) := by
  induction l with
  | nil => exact List.Perm.refl _
  | cons y ys ih =>
    simp only [qsort_insert]
    by_cases h : cmp x y > 0
    · rw [if_pos h]
      exact ((List.Perm.cons y ih).trans (List.Perm.swap x y ys))
    · rw [if_neg h]

theorem insertion_qsort_permutes : QsortPermutes insertion_qsort := by
  intro l
  induction l with
  | nil => exact List.Perm.refl _
  | cons x l ih =>
    show (qsort_insert compare x (insertion_qsort compare l)).Perm (x :: l)
    exact (qsort_insert_perm _ x _).trans (List.Perm.cons x ih)

/-! ## Results of the remote indexing -/

/-- C3: on every group whose predecessor lists name ranks of the group and
repeat no rank, for every arrival order of the identity messages and every
`qsort` that rearranges its input, `rempi_cp_remote_indexing` completes on all
ranks and, for every rank `a` and position `i` with `b = a.pred_ranks[i]`, the
index `a.output_pred_indices[i]` is the slot `j` that `b` assigned to `a`: the
unique `j` below the successor count of `b` with `b.succ_ranks[j] = a`, and
`b.succ_indices[j] = j`. -/
theorem C3_index_consistency (qsort : Qsort) (hq : QsortPermutes qsort)
    (preds : List (List Nat)) (hv : ValidTopology preds) (arrival : Nat → List Nat)
    (ha : ValidArrival preds arrival) :
    ∃ outs, rempi_cp_remote_indexing qsort preds arrival = some outs ∧
      outs.length = preds.length ∧
      ∀ (a i b : Nat) (ps : List Nat), preds[a]? = some ps → ps[i]? = some b →
        ∃ (oa ob : Indexing) (j : Nat), outs[a]? = some oa ∧ outs[b]? = some ob ∧
          oa.output_pred_indices[i]? = some j ∧
          j < ob.output_succ_rank_count ∧
          ob.output_succ_ranks[j]? = some a ∧
          ob.output_succ_indices[j]? = some j ∧
          ∀ j1, j1 < ob.output_succ_rank_count →
            ob.output_succ_ranks[j1]? = some a → j1 = j := by
  refine ⟨_, rempi_cp_remote_indexing_eq qsort hq preds hv arrival ha, by simp, ?_⟩
  intro a i b ps hps hb
  have hlt : a < preds.length := by
    by_contra hn
    rw [List.getElem?_eq_none (by simpa using hn)] at hps
    exact Option.noConfusion hps
  have hi : i < ps.length := by
    by_contra hn
    rw [List.getElem?_eq_none (by simpa using hn)] at hb
    exact Option.noConfusion hb
  have hpsD : preds.getD a [] = ps := by
    have := getElem?_eq_some_getD preds [] hlt
    rw [hps] at this
    exact (Option.some.inj this).symm
  have hbD : ps.getD i 0 = b := by
    have := getElem?_eq_some_getD ps 0 hi
    rw [hb] at this
    exact (Option.some.inj this).symm
  have hbmem : b ∈ ps := List.getElem?_mem hb
  have hblt : b < preds.length := (hv ps (List.getElem?_mem hps)).2 b hbmem
  have hlen := sorted_length qsort hq preds hv arrival ha b hblt
  have hnd := sorted_nodup qsort hq preds hv arrival ha b hblt
  have hin : a ∈ qsort compare (arrival b) :=
    (sorted_mem qsort hq preds hv arrival ha b hblt a).2 ⟨ps, hps, hbmem⟩
  have hidx : (qsort compare (arrival b)).indexOf a < (qsort compare (arrival b)).length :=
    List.indexOf_lt_length.2 hin
  refine ⟨indexing_result qsort preds arrival a, indexing_result qsort preds arrival b,
    (qsort compare (arrival b)).indexOf a, ?_, ?_, ?_, ?_, ?_, ?_, ?_⟩
  · rw [List.getElem?_map, List.getElem?_range hlt]; rfl
  · rw [List.getElem?_map, List.getElem?_range hblt]; rfl
  · simp only [indexing_result, hpsD]
    rw [List.getElem?_map, List.getElem?_range hi]
    simp only [Option.map_some', hbD]
  · show _ < listing_count preds b
    rw [← hlen]; exact hidx
  · simp only [indexing_result, local_result]
    rw [List.getElem?_append_left hidx, List.getElem?_eq_getElem hidx, List.getElem_indexOf]
  · simp only [indexing_result, local_result]
    rw [succ_indices_loop_getElem? _ _
      (by rw [succ_rank_counts_length]; exact listing_count_le preds b),
      if_pos (by rw [← hlen]; exact hidx)]
  · intro j1 hj1 hget
    have hj1' : j1 < (qsort compare (arrival b)).length := by
      rw [hlen]; exact hj1
    simp only [indexing_result, local_result] at hget
    rw [List.getElem?_append_left hj1', List.getElem?_eq_getElem hj1'] at hget
    rw [← Option.some.inj hget]
    exact (List.indexOf_getElem hnd j1 hj1').symm

/-- C3 on the worked example of the source comment with identity messages that
arrive from the highest sender down: rank 0 reads `[0, 0]`, rank 1 reads `[1]`,
rank 2 reads `[0, 1, 2]`. -/
theorem C3_index_consistency_witness :
    QsortPermutes insertion_qsort ∧ ValidTopology example_preds ∧
    ValidArrival example_preds (descending_arrival example_preds) ∧
    (rempi_cp_remote_indexing insertion_qsort example_preds
        (descending_arrival example_preds)).map (fun outs => outs.map (fun o => o.output_pred_indices))
      = some [[0, 0], [1], [0, 1, 2]] ∧
    (rempi_cp_remote_indexing insertion_qsort scenario_preds
        (descending_arrival scenario_preds)).map (fun outs => outs.map (fun o => o.output_pred_indices))
      = some [[], [], [0, 0]] ∧
    ∃ outs, rempi_cp_remote_indexing insertion_qsort example_preds
        (descending_arrival example_preds) = some outs ∧
      outs.length = example_preds.length ∧
      ∀ (a i b : Nat) (ps : List Nat), example_preds[a]? = some ps → ps[i]? = some b →
        ∃ (oa ob : Indexing) (j : Nat), outs[a]? = some oa ∧ outs[b]? = some ob ∧
          oa.output_pred_indices[i]? = some j ∧
          j < ob.output_succ_rank_count ∧
          ob.output_succ_ranks[j]? = some a ∧
          ob.output_succ_indices[j]? = some j ∧
          ∀ j1, j1 < ob.output_succ_rank_count →
            ob.output_succ_ranks[j1]? = some a → j1 = j :=
  ⟨insertion_qsort_permutes, by decide, by decide, by decide, by decide,
    C3_index_consistency insertion_qsort insertion_qsort_permutes example_preds (by decide)
      (descending_arrival example_preds) (by decide)⟩

theorem qsort_insert_negative_perm (cmp : Nat → Nat → Int) (x : Nat) (l : List Nat) :
    (qsort_insert_negative cmp x l).Perm (x :: l) := by
  induction l with
  | nil => exact List.Perm.refl _
  | cons y ys ih =>
    simp only [qsort_insert_negative]
    by_cases h : cmp x y < 0
    · rw [if_pos h]
    · rw [if_neg h]
      exact ((List.Perm.cons y ih).trans (List.Perm.swap x y ys))

theorem negative_test_qsort_perm (cmp : Nat → Nat → Int) (l : List Nat) :
    (negative_test_qsort cmp l).Perm l := by
  induction l with
  | nil => exact List.Perm.refl _
  | cons x l ih =>
    show (qsort_insert_negative cmp x (negative_test_qsort cmp l)).Perm (x :: l)
    exact (qsort_insert_negative_perm _ x _).trans (List.Perm.cons x ih)

/-- The sort `negative_test_qsort` meets the postcondition of `qsort` for every
comparator that follows its contract: the result is ascending. -/
theorem negative_test_qsort_sorts (cmp : Nat → Nat → Int)
    (hcmp : ∀ a b, cmp a b < 0 ↔ a < b) (l : List Nat) :
    (negative_test_qsort cmp l).Pairwise (fun a b => a ≤ b) := by
  induction l with
  | nil => exact List.Pairwise.nil
  | cons x l ih =>
    show (qsort_insert_negative cmp x (negative_test_qsort cmp l)).Pairwise _
    generalize negative_test_qsort cmp l = t at ih
    induction t with
    | nil => simp [qsort_insert_negative]
    | cons y ys iht =>
      simp only [qsort_insert_negative]
      have hy := List.pairwise_cons.1 ih
      by_cases h : cmp x y < 0
      · rw [if_pos h]
        have hxy : x < y := (hcmp x y).1 h
        refine List.pairwise_cons.2 ⟨?_, ih⟩
        intro z hz
        rcases List.mem_cons.1 hz with h1 | h1
        · rw [h1]; omega
        · have := hy.1 z h1; omega
      · rw [if_neg h]
        have hxy : y ≤ x := by
          by_contra hn
          exact h ((hcmp x y).2 (by omega))
        refine List.pairwise_cons.2 ⟨?_, iht hy.2⟩
        intro z hz
        rcases List.mem_cons.1 ((qsort_insert_negative_perm cmp x ys).mem_iff.1 hz) with h1 | h1
        · rw [h1]; exact hxy
        · exact hy.1 z h1

/-- Under the comparator `three_way_compare`, which follows the contract of
`qsort`, the sort `negative_test_qsort` returns its input in ascending order. -/
theorem negative_test_qsort_three_way (l : List Nat) :
    (negative_test_qsort three_way_compare l).Perm l ∧
    (negative_test_qsort three_way_compare l).Pairwise (fun a b => a ≤ b) :=
  ⟨negative_test_qsort_perm _ l,
    negative_test_qsort_sorts _ (fun a b => by unfold three_way_compare; omega) l⟩

/-- C10, as stated, fails on the group of two in which rank 0 lists rank 1
twice (both entries lie in the group): step 1 counts one process listing rank
1, so rank 1 posts one identity receive, while rank 0 issues two identity sends
to rank 1; one send stays unmatched and the collective does not complete. -/
theorem C10_repeated_rank_unmatched :
    (∀ ps ∈ repeated_preds, ∀ r ∈ ps, r < repeated_preds.length) ∧
    (succ_rank_counts repeated_preds)[1]? = some 1 ∧
    listing_count repeated_preds 1 = 1 ∧
    (gather_send_dests (repeated_preds.getD 0 [])).length = 2 ∧
    (gather_mailbox repeated_preds 1).length = 2 ∧
    rempi_cp_remote_indexing insertion_qsort repeated_preds
      (ascending_arrival repeated_preds) = none := by
  decide

/-- C10 amended: on every group whose predecessor lists name ranks of the group
and repeat no rank, for every arrival order, steps 1 to 3 complete on all ranks
and, for every rank `r` with list `ps`: `succ_rank_counts[r]` is the number of
processes that list `r`; `r` issues `ps.length` identity sends and posts
`succ_rank_counts[r]` identity receives; the number of identity messages
addressed to `r` equals the number of receives `r` posts; and for every rank
`b` the number of index messages `b` sends to `r` in step 4 equals the number of
receives `r` posts with source `b`. -/
theorem C10_message_counts_match (qsort : Qsort) (hq : QsortPermutes qsort)
    (preds : List (List Nat)) (hv : ValidTopology preds) (arrival : Nat → List Nat)
    (ha : ValidArrival preds arrival) :
    ∃ locals, remote_indexing_locals qsort preds arrival = some locals ∧
      locals.length = preds.length ∧
      ∀ (r : Nat) (ps : List Nat) (l : Local), preds[r]? = some ps → locals[r]? = some l →
        (succ_rank_counts preds)[r]? = some (listing_count preds r) ∧
        (gather_send_dests ps).length = ps.length ∧
        l.succ_rank_count = listing_count preds r ∧
        (gather_mailbox preds r).length = l.succ_rank_count ∧
        ∀ (b : Nat) (lb : Local), locals[b]? = some lb →
          (scatter_channel lb r).length = ps.count b := by
  refine ⟨_, remote_indexing_locals_eq qsort preds hv arrival ha, by simp, ?_⟩
  intro r ps l hps hl
  have hr : r < preds.length := by
    by_contra hn
    rw [List.getElem?_eq_none (by simpa using hn)] at hps
    exact Option.noConfusion hps
  rw [List.getElem?_map, List.getElem?_range hr] at hl
  have hl1 : l = local_result qsort preds arrival r := (Option.some.inj hl).symm
  subst hl1
  refine ⟨succ_rank_counts_getElem? preds r hr, rfl, rfl, gather_mailbox_length preds hv r, ?_⟩
  intro b lb hlb
  have hb : b < preds.length := by
    by_contra hn
    rw [List.getElem?_eq_none (by simpa using hn)] at hlb
    exact Option.noConfusion hlb
  rw [List.getElem?_map, List.getElem?_range hb] at hlb
  have hlb1 : lb = local_result qsort preds arrival b := (Option.some.inj hlb).symm
  subst hlb1
  rw [scatter_channel_eq qsort hq preds hv arrival ha b hb r,
    List.count_eq_of_nodup (hv ps (List.getElem?_mem hps)).1]
  have hiff : r ∈ qsort compare (arrival b) ↔ b ∈ ps := by
    rw [sorted_mem qsort hq preds hv arrival ha b hb r]
    constructor
    · rintro ⟨qs, h1, h2⟩
      rw [hps] at h1
      rw [Option.some.inj h1]; exact h2
    · intro h; exact ⟨ps, hps, h⟩
  by_cases hmem : b ∈ ps
  · rw [if_pos (hiff.2 hmem), if_pos hmem]; rfl
  · rw [if_neg (fun h => hmem (hiff.1 h)), if_neg hmem]; rfl

/-- C10 amended, on the group of three with an isolated rank 1: rank 0 lists
rank 2, rank 2 lists rank 0 and rank 1 lists nobody and is listed by nobody. -/
theorem C10_message_counts_match_witness :
    QsortPermutes insertion_qsort ∧ ValidTopology [[2], [], [0]] ∧
    ValidArrival [[2], [], [0]] (ascending_arrival [[2], [], [0]]) ∧
    (gather_mailbox [[2], [], [0]] 1).length = 0 ∧
    ∃ locals, remote_indexing_locals insertion_qsort [[2], [], [0]]
        (ascending_arrival [[2], [], [0]]) = some locals ∧
      locals.length = [[2], [], [0]].length ∧
      ∀ (r : Nat) (ps : List Nat) (l : Local),
        [[2], [], [0]][r]? = some ps → locals[r]? = some l →
        (succ_rank_counts [[2], [], [0]])[r]? = some (listing_count [[2], [], [0]] r) ∧
        (gather_send_dests ps).length = ps.length ∧
        l.succ_rank_count = listing_count [[2], [], [0]] r ∧
        (gather_mailbox [[2], [], [0]] r).length = l.succ_rank_count ∧
        ∀ (b : Nat) (lb : Local), locals[b]? = some lb →
          (scatter_channel lb r).length = ps.count b :=
  ⟨insertion_qsort_permutes, by decide, by decide, by decide,
    C10_message_counts_match insertion_qsort insertion_qsort_permutes [[2], [], [0]] (by decide)
      (ascending_arrival [[2], [], [0]]) (by decide)⟩

/-! ## The operations on initialised states -/

theorem record_send_present (s : State) (hs : Initialized s) (d j clock : Nat)
    (hd : umap_find s.rempi_succ_ranks_indices d = some j) :
    ∃ pc, s.rempi_cp_scatter_pc[j]? = some pc ∧
      rempi_cp_record_send s d clock = some
        { s with rempi_cp_scatter_pc :=
            (s.rempi_cp_scatter_pc.set j ⟨pc.next_clock, pc.send_count + 1⟩) } := by
  obtain ⟨_, _, _, _, _, hsc, _, hsu⟩ := hs
  have hj : j < s.rempi_cp_scatter_pc.length := by
    have := hsu _ (umap_find_mem hd); simp at this; omega
  refine ⟨s.rempi_cp_scatter_pc[j], List.getElem?_eq_getElem hj, ?_⟩
  simp [rempi_cp_record_send, umap_subscript_present hd, List.getElem?_eq_getElem hj]

theorem record_recv_present (s : State) (hs : Initialized s) (r i clock : Nat)
    (hr : umap_find s.rempi_pred_ranks_indices r = some i) :
    ∃ rc, s.rempi_recv_counts[i]? = some rc ∧
      rempi_cp_record_recv s r clock = some
        { s with rempi_recv_counts := s.rempi_recv_counts.set i (rc + 1) } := by
  obtain ⟨_, _, hrc, _, _, _, hp, _⟩ := hs
  have hi : i < s.rempi_recv_counts.length := by
    have := hp _ (umap_find_mem hr); simp at this; omega
  refine ⟨s.rempi_recv_counts[i], List.getElem?_eq_getElem hi, ?_⟩
  simp [rempi_cp_record_recv, umap_subscript_present hr, List.getElem?_eq_getElem hi]

theorem has_in_flight_present (s : State) (hs : Initialized s) (r i : Nat)
    (hr : umap_find s.rempi_pred_ranks_indices r = some i) :
    ∃ pc rc, s.rempi_cp_gather_pc[i]? = some pc ∧ s.rempi_recv_counts[i]? = some rc ∧
      rempi_cp_has_in_flight_msgs s r = some (s, if pc.send_count ≤ rc then 1 else 0) := by
  obtain ⟨_, hg, hrc, _, _, _, hp, _⟩ := hs
  have hlt : i < s.rempi_pred_rank_count := hp _ (umap_find_mem hr)
  have h1 : i < s.rempi_cp_gather_pc.length := by omega
  have h2 : i < s.rempi_recv_counts.length := by omega
  refine ⟨_, _, List.getElem?_eq_getElem h1, List.getElem?_eq_getElem h2, ?_⟩
  simp [rempi_cp_has_in_flight_msgs, umap_subscript_present hr, List.getElem?_eq_getElem h1,
    List.getElem?_eq_getElem h2]

theorem set_next_clock_fold (clock : Int) (l : List rempi_cp_prop_clock) (n : Nat)
    (hn : n ≤ l.length) :
    ∃ l1, (List.range n).foldl (set_next_clock_body clock) (some l) = some l1 ∧
      l1.length = l.length ∧
      ∀ i, l1[i]? = if i < n then (l[i]?).map (fun pc => ⟨clock, pc.send_count⟩) else l[i]? := by
  induction n with
  | zero => exact ⟨l, rfl, rfl, by simp⟩
  | succ n ih =>
    obtain ⟨l1, hfold, hlen, hget⟩ := ih (by omega)
    have hn1 : n < l1.length := by omega
    rw [List.range_succ, List.foldl_append, hfold]
    simp only [List.foldl_cons, List.foldl_nil, set_next_clock_body,
      List.getElem?_eq_getElem hn1]
    refine ⟨_, rfl, by simp [hlen], ?_⟩
    intro i
    by_cases hin : i = n
    · subst hin
      rw [List.getElem?_set_self hn1, if_pos (Nat.lt_succ_self i)]
      have h1 := hget i
      rw [if_neg (Nat.lt_irrefl i), List.getElem?_eq_getElem hn1] at h1
      rw [← h1]
      rfl
    · have hne : ¬ n = i := fun h => hin h.symm
      rw [List.getElem?_set_ne hne, hget i]
      by_cases hi : i < n
      · rw [if_pos hi, if_pos (Nat.lt_succ_of_lt hi)]
      · have : ¬ i < n + 1 := by omega
        rw [if_neg hi, if_neg this]

theorem set_next_clock_spec (s : State) (hs : Initialized s) (clock : Int) :
    rempi_cp_set_next_clock s clock = some
      { s with rempi_cp_scatter_pc :=
          s.rempi_cp_scatter_pc.map (fun pc => ⟨clock, pc.send_count⟩) } := by
  obtain ⟨_, _, _, _, _, hsc, _, _⟩ := hs
  obtain ⟨l1, hfold, hlen, hget⟩ :=
    set_next_clock_fold clock s.rempi_cp_scatter_pc s.rempi_succ_rank_count (by omega)
  have hl1 : l1 = s.rempi_cp_scatter_pc.map (fun pc => ⟨clock, pc.send_count⟩) := by
    apply List.ext_getElem?
    intro i
    rw [hget i, List.getElem?_map]
    by_cases hi : i < s.rempi_succ_rank_count
    · rw [if_pos hi]
    · rw [if_neg hi, List.getElem?_eq_none (by omega)]
      rfl
  simp only [rempi_cp_set_next_clock, hfold, hl1]

/-! ## Effects of calls -/

theorem record_send_calls_cons (p d : Nat) (c : Call) (cs : List Call) :
    record_send_calls p d (c :: cs) = record_send_calls p d [c] + record_send_calls p d cs := by
  cases c <;> simp [record_send_calls]

theorem record_recv_calls_cons (p r : Nat) (c : Call) (cs : List Call) :
    record_recv_calls p r (c :: cs) = record_recv_calls p r [c] + record_recv_calls p r cs := by
  cases c <;> simp [record_recv_calls]

theorem last_next_clock_cons (p : Nat) (init : Int) (c : Call) (cs : List Call) :
    last_next_clock p init (c :: cs) = last_next_clock p (last_next_clock p init [c]) cs := by
  cases c <;> simp [last_next_clock]

theorem record_send_calls_other (q d : Nat) (c : Call) (h : c.proc ≠ q) :
    record_send_calls q d [c] = 0 := by
  cases c <;> simp [record_send_calls, Call.proc] at h ⊢
  intro h1; exact absurd h1 h

theorem record_recv_calls_other (q r : Nat) (c : Call) (h : c.proc ≠ q) :
    record_recv_calls q r [c] = 0 := by
  cases c <;> simp [record_recv_calls, Call.proc] at h ⊢
  intro h1; exact absurd h1 h

theorem last_next_clock_other (q : Nat) (init : Int) (c : Call) (h : c.proc ≠ q) :
    last_next_clock q init [c] = init := by
  cases c <;> simp [last_next_clock, Call.proc] at h ⊢
  intro h1; exact absurd h1 h

theorem SameTables.refl (s : State) : SameTables s s := ⟨rfl, rfl, rfl, rfl⟩

theorem SameTables.trans {s s1 s2 : State} (h1 : SameTables s s1) (h2 : SameTables s1 s2) :
    SameTables s s2 :=
  ⟨h2.1.trans h1.1, h2.2.1.trans h1.2.1, h2.2.2.1.trans h1.2.2.1, h2.2.2.2.trans h1.2.2.2⟩

theorem SameTables.succ_map {s s1 : State} (h : SameTables s s1) :
    s1.rempi_succ_ranks_indices = s.rempi_succ_ranks_indices := by
  have := h.1; simp only [tables, Prod.mk.injEq] at this; exact this.2.2.2.2.2.2.2.2

theorem SameTables.pred_map {s s1 : State} (h : SameTables s s1) :
    s1.rempi_pred_ranks_indices = s.rempi_pred_ranks_indices := by
  have := h.1; simp only [tables, Prod.mk.injEq] at this; exact this.2.2.2.2.1

theorem SameTables.succ_count {s s1 : State} (h : SameTables s s1) :
    s1.rempi_succ_rank_count = s.rempi_succ_rank_count := by
  have := h.1; simp only [tables, Prod.mk.injEq] at this; exact this.2.2.2.2.2.1

theorem SameTables.pred_count {s s1 : State} (h : SameTables s s1) :
    s1.rempi_pred_rank_count = s.rempi_pred_rank_count := by
  have := h.1; simp only [tables, Prod.mk.injEq] at this; exact this.2.1

theorem SameTables.pred_ranks {s s1 : State} (h : SameTables s s1) :
    s1.rempi_pred_ranks = s.rempi_pred_ranks := by
  have := h.1; simp only [tables, Prod.mk.injEq] at this; exact this.2.2.1

theorem SameTables.pred_indices {s s1 : State} (h : SameTables s s1) :
    s1.rempi_pred_indices = s.rempi_pred_indices := by
  have := h.1; simp only [tables, Prod.mk.injEq] at this; exact this.2.2.2.1

theorem SameTables.initialized {s s1 : State} (h : SameTables s s1) (hs : Initialized s) :
    Initialized s1 := by
  obtain ⟨h0, h1, h2, h3, h4, h5, h6, h7⟩ := hs
  have ht := h.1
  simp only [tables, Prod.mk.injEq] at ht
  obtain ⟨t0, t1, t2, t3, t4, t5, t6, t7, t8⟩ := ht
  refine ⟨by rw [t0]; exact h0, by rw [h.2.1, t1]; exact h1, by rw [h.2.2.2, t1]; exact h2,
    by rw [t2, t1]; exact h3, by rw [t3, t1]; exact h4, by rw [h.2.2.1, t5]; exact h5,
    by rw [t4, t1]; exact h6, by rw [t8, t5]; exact h7⟩

theorem SameTables.procOK {preds : List (List Nat)} {p : Nat} {s s1 : State}
    (h : SameTables s s1) (hs : ProcOK preds p s) : ProcOK preds p s1 := by
  obtain ⟨h0, h1, h2, h3, h4⟩ := hs
  refine ⟨h.initialized h0, ?_, ?_, ?_, ?_⟩
  · rw [h.pred_map]; exact h1
  · rw [h.succ_map]; exact h2
  · rw [h.pred_map]; exact h3
  · rw [h.succ_map]; exact h4

theorem Effect.nil (p : Nat) (s : State) : Effect p [] s s :=
  ⟨SameTables.refl s, fun _ _ _ => rfl, fun _ _ => rfl, fun _ _ _ => rfl⟩

theorem Effect.other (q : Nat) (c : Call) (h : c.proc ≠ q) (s : State) : Effect q [c] s s :=
  ⟨SameTables.refl s, fun d _ _ => by rw [record_send_calls_other q d c h]; rfl,
    fun _ _ => by rw [last_next_clock_other q _ c h],
    fun r _ _ => by rw [record_recv_calls_other q r c h]; rfl⟩

theorem Effect.cons {p : Nat} {c : Call} {cs : List Call} {s s1 s2 : State}
    (h1 : Effect p [c] s s1) (h2 : Effect p cs s1 s2) : Effect p (c :: cs) s s2 := by
  obtain ⟨a1, b1, c1, d1⟩ := h1
  obtain ⟨a2, b2, c2, d2⟩ := h2
  refine ⟨a1.trans a2, ?_, ?_, ?_⟩
  · intro d j hd
    rw [record_send_calls_cons, b2 d j (by rw [a1.succ_map]; exact hd), b1 d j hd]
    omega
  · intro j hj
    rw [last_next_clock_cons, c2 j (by rw [a1.succ_count]; exact hj), c1 j hj]
  · intro r i hr
    rw [record_recv_calls_cons, d2 r i (by rw [a1.pred_map]; exact hr), d1 r i hr]
    omega

theorem CountersGrow.of_same (s : State) : CountersGrow s s :=
  ⟨rfl, rfl, fun _ => Nat.le_refl _, fun _ => Nat.le_refl _⟩

theorem getD_set_self (l : List Nat) (j v : Nat) (hj : j < l.length) :
    (l.set j v).getD j 0 = v := by
  rw [List.getD_eq_getElem?_getD, List.getElem?_set_self hj]; rfl

theorem getD_set_ne (l : List Nat) (j k v : Nat) (h : j ≠ k) :
    (l.set j v).getD k 0 = l.getD k 0 := by
  rw [List.getD_eq_getElem?_getD, List.getElem?_set_ne h, ← List.getD_eq_getElem?_getD]

theorem getD_le_getD_set (l : List Nat) (j k v : Nat) (hv : l.getD j 0 ≤ v) :
    l.getD k 0 ≤ (l.set j v).getD k 0 := by
  by_cases h : j = k
  · subst h
    by_cases hj : j < l.length
    · rw [getD_set_self l j v hj]; exact hv
    · rw [List.set_eq_of_length_le (by omega)]
  · rw [getD_set_ne l j k v h]

theorem mem_getD_nil {preds : List (List Nat)} {d p : Nat} (h : p ∈ preds.getD d []) :
    ∃ ps, preds[d]? = some ps ∧ p ∈ ps := by
  by_cases hd : d < preds.length
  · exact ⟨preds.getD d [], getElem?_eq_some_getD preds [] hd, h⟩
  · rw [List.getD_eq_getElem?_getD, List.getElem?_eq_none (by omega)] at h
    exact absurd h (List.not_mem_nil p)

theorem record_send_effect (preds : List (List Nat)) (p : Nat) (s : State)
    (hs : ProcOK preds p s) (d clock : Nat) (hd : p ∈ preds.getD d []) :
    ∃ s1, rempi_cp_record_send s d clock = some s1 ∧
      s1.rempi_cp_gather_pc = s.rempi_cp_gather_pc ∧
      Effect p [Call.record_send p d clock] s s1 ∧ CountersGrow s s1 := by
  obtain ⟨hinit, _, hsucc, _, hinj⟩ := hs
  obtain ⟨ps, hps, hmem⟩ := mem_getD_nil hd
  obtain ⟨j, hj⟩ := hsucc d ps hps hmem
  obtain ⟨pc, hpc, hsend⟩ := record_send_present s hinit d j clock hj
  have hjlt : j < s.rempi_cp_scatter_pc.length := by
    by_contra hn
    rw [List.getElem?_eq_none (by omega)] at hpc
    exact Option.noConfusion hpc
  have hsc : send_counts { s with rempi_cp_scatter_pc :=
      (s.rempi_cp_scatter_pc.set j ⟨pc.next_clock, pc.send_count + 1⟩) }
      = (send_counts s).set j (pc.send_count + 1) := by
    simp [send_counts, List.map_set]
  have hold : (send_counts s).getD j 0 = pc.send_count := by
    simp [send_counts, List.getD_eq_getElem?_getD, List.getElem?_map, hpc]
  have hjlt1 : j < (send_counts s).length := by simpa [send_counts] using hjlt
  have hnc : next_clocks { s with rempi_cp_scatter_pc :=
      (s.rempi_cp_scatter_pc.set j ⟨pc.next_clock, pc.send_count + 1⟩) } = next_clocks s := by
    simp only [next_clocks, List.map_set]
    apply List.ext_getElem?
    intro n
    by_cases hn : j = n
    · subst hn
      rw [List.getElem?_set_self (by simpa using hjlt), List.getElem?_map, hpc]; rfl
    · rw [List.getElem?_set_ne hn]
  refine ⟨_, hsend, rfl, ⟨⟨rfl, rfl, by simp, rfl⟩, ?_, ?_, ?_⟩, ⟨?_, rfl, ?_, fun _ => Nat.le_refl _⟩⟩
  · intro d1 j1 hd1
    rw [hsc]
    by_cases hjj : j1 = j
    · subst hjj
      have hdd : d1 = d := hinj d1 d j1 hd1 hj
      subst hdd
      rw [getD_set_self _ _ _ hjlt1, hold]
      simp [record_send_calls]
    · have hdd : d1 ≠ d := by
        intro h; subst h
        rw [hj] at hd1
        exact hjj (Option.some.inj hd1).symm
      have hdd1 : ¬ d = d1 := fun h => hdd h.symm
      rw [getD_set_ne _ _ _ _ (fun h => hjj h.symm)]
      simp [record_send_calls, hdd1]
  · intro j1 _
    rw [hnc]; rfl
  · intro r i _
    simp [record_recv_calls]
  · rw [hsc]; simp
  · intro k
    rw [hsc]
    exact getD_le_getD_set _ _ _ _ (by rw [hold]; omega)

theorem record_recv_effect (preds : List (List Nat)) (p : Nat) (s : State)
    (hs : ProcOK preds p s) (r clock : Nat) (hr : r ∈ preds.getD p []) :
    ∃ s1, rempi_cp_record_recv s r clock = some s1 ∧
      s1.rempi_cp_gather_pc = s.rempi_cp_gather_pc ∧
      Effect p [Call.record_recv p r clock] s s1 ∧ CountersGrow s s1 := by
  obtain ⟨hinit, hpred, _, hinj, _⟩ := hs
  obtain ⟨i, hi⟩ := hpred r hr
  obtain ⟨rc, hrc, hrecv⟩ := record_recv_present s hinit r i clock hi
  have hilt : i < s.rempi_recv_counts.length := by
    by_contra hn
    rw [List.getElem?_eq_none (by omega)] at hrc
    exact Option.noConfusion hrc
  have hold : s.rempi_recv_counts.getD i 0 = rc := by
    simp [List.getD_eq_getElem?_getD, hrc]
  refine ⟨_, hrecv, rfl, ⟨⟨rfl, rfl, rfl, by simp⟩, ?_, ?_, ?_⟩,
    ⟨rfl, by simp, fun _ => Nat.le_refl _, ?_⟩⟩
  · intro d j _
    simp [record_send_calls, send_counts]
  · intro j _; rfl
  · intro r1 i1 hr1
    show (s.rempi_recv_counts.set i (rc + 1)).getD i1 0 = _
    by_cases hii : i1 = i
    · subst hii
      have hrr : r1 = r := hinj r1 r i1 hr1 hi
      subst hrr
      rw [getD_set_self _ _ _ hilt, hold]
      simp [record_recv_calls]
    · have hrr : r1 ≠ r := by
        intro h; subst h
        rw [hi] at hr1
        exact hii (Option.some.inj hr1).symm
      have hrr1 : ¬ r = r1 := fun h => hrr h.symm
      rw [getD_set_ne _ _ _ _ (fun h => hii h.symm)]
      simp [record_recv_calls, hrr1]
  · intro k
    show _ ≤ (s.rempi_recv_counts.set i (rc + 1)).getD k 0
    exact getD_le_getD_set _ _ _ _ (by rw [hold]; omega)

theorem set_next_clock_effect (preds : List (List Nat)) (p : Nat) (s : State)
    (hs : ProcOK preds p s) (clock : Int) :
    ∃ s1, rempi_cp_set_next_clock s clock = some s1 ∧
      s1.rempi_cp_gather_pc = s.rempi_cp_gather_pc ∧
      Effect p [Call.set_next_clock p clock] s s1 ∧ CountersGrow s s1 := by
  obtain ⟨hinit, _, _, _, _⟩ := hs
  have hlen : s.rempi_cp_scatter_pc.length = s.rempi_succ_rank_count := hinit.2.2.2.2.2.1
  have hsc : send_counts { s with rempi_cp_scatter_pc :=
      (s.rempi_cp_scatter_pc.map (fun pc => ⟨clock, pc.send_count⟩)) } = send_counts s := by
    simp [send_counts, List.map_map, Function.comp_def]
  refine ⟨_, set_next_clock_spec s hinit clock, rfl, ⟨⟨rfl, rfl, by simp, rfl⟩, ?_, ?_, ?_⟩,
    ⟨by rw [hsc], rfl, fun _ => by rw [hsc], fun _ => Nat.le_refl _⟩⟩
  · intro d j _
    rw [hsc]; simp [record_send_calls]
  · intro j hj
    have hj1 : j < s.rempi_cp_scatter_pc.length := by omega
    simp [next_clocks, last_next_clock, List.getD_eq_getElem?_getD, List.getElem?_map,
      List.getElem?_eq_getElem hj1]
  · intro r i _
    simp [record_recv_calls]

theorem gather_effect (p : Nat) (s : State) (hs : Initialized s) (w : List State) :
    ∃ s1, (rempi_cp_gather_clocks (world_PMPI_Get w) MPI_SUCCESS s).map Prod.fst = some s1 ∧
      Effect p [Call.gather_clocks p] s s1 ∧ CountersGrow s s1 := by
  obtain ⟨g, hall, hlen, _⟩ := gather_clocks_spec (world_PMPI_Get w) s hs
  refine ⟨{ s with rempi_cp_gather_pc := g }, by rw [hall MPI_SUCCESS]; rfl,
    ⟨⟨rfl, hlen, rfl, rfl⟩, ?_, ?_, ?_⟩, ⟨rfl, rfl, fun _ => Nat.le_refl _, fun _ => Nat.le_refl _⟩⟩
  · intro d j _; simp [record_send_calls, send_counts]
  · intro j _; rfl
  · intro r i _; simp [record_recv_calls]

theorem has_in_flight_effect (preds : List (List Nat)) (p : Nat) (s : State)
    (hs : ProcOK preds p s) (r : Nat) (hr : r ∈ preds.getD p []) :
    ∃ s1, (rempi_cp_has_in_flight_msgs s r).map Prod.fst = some s1 ∧
      Effect p [Call.has_in_flight_msgs p r] s s1 ∧ CountersGrow s s1 := by
  obtain ⟨hinit, hpred, _, _, _⟩ := hs
  obtain ⟨i, hi⟩ := hpred r hr
  obtain ⟨pc, rc, _, _, hres⟩ := has_in_flight_present s hinit r i hi
  refine ⟨s, by rw [hres]; rfl, ⟨SameTables.refl s, ?_, ?_, ?_⟩, CountersGrow.of_same s⟩
  · intro d j _; simp [record_send_calls]
  · intro j _; rfl
  · intro r i _; simp [record_recv_calls]

theorem Call.valid_proc_lt (preds : List (List Nat)) (c : Call) (hc : c.valid preds) :
    c.proc < preds.length := by
  cases c <;> simp only [Call.valid, Call.proc] at hc ⊢
  · exact hc.1
  · exact hc.1
  · exact hc
  · exact hc
  · exact hc.1

theorem op_effect (preds : List (List Nat)) (w : List State) (c : Call)
    (hc : c.valid preds) (s : State) (hs : ProcOK preds c.proc s) :
    ∃ s1, c.op w s = some s1 ∧ Effect c.proc [c] s s1 ∧ CountersGrow s s1 := by
  cases c with
  | record_send p d clock =>
    obtain ⟨s1, h1, _, h2, h3⟩ := record_send_effect preds p s hs d clock hc.2
    exact ⟨s1, h1, h2, h3⟩
  | record_recv p r clock =>
    obtain ⟨s1, h1, _, h2, h3⟩ := record_recv_effect preds p s hs r clock hc.2
    exact ⟨s1, h1, h2, h3⟩
  | set_next_clock p clock =>
    obtain ⟨s1, h1, _, h2, h3⟩ := set_next_clock_effect preds p s hs clock
    exact ⟨s1, h1, h2, h3⟩
  | gather_clocks p => exact gather_effect p s hs.1 w
  | has_in_flight_msgs p r => exact has_in_flight_effect preds p s hs r hc.2

theorem world_step_effect (preds : List (List Nat)) (w : List State) (hw : WorldOK preds w)
    (c : Call) (hc : c.valid preds) :
    ∃ w1, world_step w c = some w1 ∧ WorldOK preds w1 ∧
      ∀ p s, w[p]? = some s → ∃ s1, w1[p]? = some s1 ∧ Effect p [c] s s1 ∧ CountersGrow s s1 := by
  have hlt : c.proc < w.length := by rw [hw.1]; exact Call.valid_proc_lt preds c hc
  have hget : w[c.proc]? = some w[c.proc] := List.getElem?_eq_getElem hlt
  obtain ⟨s1, hop, heff, hgrow⟩ := op_effect preds w c hc w[c.proc] (hw.2 _ _ hget)
  refine ⟨w.set c.proc s1, by simp only [world_step, world_update, hget, hop], ⟨?_, ?_⟩, ?_⟩
  · rw [List.length_set]; exact hw.1
  · intro p s hp
    by_cases hpc : c.proc = p
    · subst hpc
      rw [List.getElem?_set_self hlt] at hp
      rw [← Option.some.inj hp]
      exact heff.1.procOK (hw.2 _ _ hget)
    · rw [List.getElem?_set_ne hpc] at hp
      exact hw.2 p s hp
  · intro p s hp
    by_cases hpc : c.proc = p
    · subst hpc
      rw [hget] at hp
      rw [← Option.some.inj hp]
      exact ⟨s1, List.getElem?_set_self hlt, heff, hgrow⟩
    · exact ⟨s, by rw [List.getElem?_set_ne hpc]; exact hp, Effect.other p c hpc s,
        CountersGrow.of_same s⟩

theorem world_run_effect (preds : List (List Nat)) (calls : List Call)
    (hcalls : ∀ c ∈ calls, c.valid preds) (w : List State) (hw : WorldOK preds w) :
    ∃ w1, world_run w calls = some w1 ∧ WorldOK preds w1 ∧
      ∀ p s, w[p]? = some s → ∃ s1, w1[p]? = some s1 ∧ Effect p calls s s1 := by
  induction calls generalizing w with
  | nil => exact ⟨w, rfl, hw, fun p s hp => ⟨s, hp, Effect.nil p s⟩⟩
  | cons c cs ih =>
    obtain ⟨w1, hstep, hw1, heff1⟩ :=
      world_step_effect preds w hw c (hcalls c (List.mem_cons_self _ _))
    obtain ⟨w2, hrun, hw2, heff2⟩ :=
      ih (fun x hx => hcalls x (List.mem_cons_of_mem _ hx)) w1 hw1
    refine ⟨w2, by simp only [world_run, hstep, hrun], hw2, ?_⟩
    intro p s hp
    obtain ⟨s1, hp1, e1, _⟩ := heff1 p s hp
    obtain ⟨s2, hp2, e2⟩ := heff2 p s1 hp1
    exact ⟨s2, hp2, Effect.cons e1 e2⟩

/-! ## The group after initialisation -/

theorem world_init_eq (qsort : Qsort) (hq : QsortPermutes qsort) (preds : List (List Nat))
    (hv : ValidTopology preds) (arrival : Nat → List Nat) (ha : ValidArrival preds arrival)
    (malloc_pc : Nat → Nat → rempi_cp_prop_clock) :
    world_init qsort preds arrival malloc_pc
      = some ((List.range preds.length).map (init_state qsort preds arrival malloc_pc)) := by
  simp only [world_init, rempi_cp_remote_indexing_eq qsort hq preds hv arrival ha]
  congr 1
  apply List.map_congr_left
  intro r hr
  have hr1 : r < preds.length := List.mem_range.1 hr
  have : ((List.range preds.length).map (indexing_result qsort preds arrival)).getD r no_indexing
      = indexing_result qsort preds arrival r := by
    rw [List.getD_eq_getElem?_getD, List.getElem?_map, List.getElem?_range hr1]; rfl
  rw [this]; rfl

theorem init_state_succ_map (qsort : Qsort) (hq : QsortPermutes qsort) (preds : List (List Nat))
    (hv : ValidTopology preds) (arrival : Nat → List Nat) (ha : ValidArrival preds arrival)
    (malloc_pc : Nat → Nat → rempi_cp_prop_clock) (r : Nat) (hr : r < preds.length) :
    (init_state qsort preds arrival malloc_pc r).rempi_succ_ranks_indices
      = init_map_loop (qsort compare (arrival r)) 0 [] := by
  have hlen := sorted_length qsort hq preds hv arrival ha r hr
  simp only [init_state, rempi_cp_init, indexing_result, local_result]
  rw [← hlen, List.take_left]

theorem init_state_procOK (qsort : Qsort) (hq : QsortPermutes qsort) (preds : List (List Nat))
    (hv : ValidTopology preds) (arrival : Nat → List Nat) (ha : ValidArrival preds arrival)
    (malloc_pc : Nat → Nat → rempi_cp_prop_clock) (r : Nat) (hr : r < preds.length) :
    ProcOK preds r (init_state qsort preds arrival malloc_pc r) := by
  have hps : preds.getD r [] ∈ preds := List.getElem?_mem (getElem?_eq_some_getD preds [] hr)
  have hnd : (preds.getD r []).Nodup := (hv _ hps).1
  have hsnd := sorted_nodup qsort hq preds hv arrival ha r hr
  have hpm : (init_state qsort preds arrival malloc_pc r).rempi_pred_ranks_indices
      = init_map_loop (preds.getD r []) 0 [] := rfl
  refine ⟨rempi_cp_init_Initialized _ _ _ _ _ (by simp [indexing_result]), ?_, ?_, ?_, ?_⟩
  · intro x hx
    rw [hpm, init_map_loop_find _ hnd, if_pos hx]
    exact ⟨_, rfl⟩
  · intro d ps hd hmem
    rw [init_state_succ_map qsort hq preds hv arrival ha malloc_pc r hr,
      init_map_loop_find _ hsnd,
      if_pos ((sorted_mem qsort hq preds hv arrival ha r hr d).2 ⟨ps, hd, hmem⟩)]
    exact ⟨_, rfl⟩
  · intro x y i hx hy
    rw [hpm, init_map_loop_find _ hnd] at hx hy
    by_cases h1 : x ∈ preds.getD r []
    · by_cases h2 : y ∈ preds.getD r []
      · rw [if_pos h1] at hx
        rw [if_pos h2] at hy
        have : (preds.getD r []).indexOf x = (preds.getD r []).indexOf y := by
          have e1 := Option.some.inj hx
          have e2 := Option.some.inj hy
          omega
        exact (List.indexOf_inj h1 h2).1 this
      · rw [if_neg h2] at hy; simp [umap_find] at hy
    · rw [if_neg h1] at hx; simp [umap_find] at hx
  · intro x y j hx hy
    rw [init_state_succ_map qsort hq preds hv arrival ha malloc_pc r hr,
      init_map_loop_find _ hsnd] at hx hy
    by_cases h1 : x ∈ qsort compare (arrival r)
    · by_cases h2 : y ∈ qsort compare (arrival r)
      · rw [if_pos h1] at hx
        rw [if_pos h2] at hy
        have : (qsort compare (arrival r)).indexOf x = (qsort compare (arrival r)).indexOf y := by
          have e1 := Option.some.inj hx
          have e2 := Option.some.inj hy
          omega
        exact (List.indexOf_inj h1 h2).1 this
      · rw [if_neg h2] at hy; simp [umap_find] at hy
    · rw [if_neg h1] at hx; simp [umap_find] at hx

theorem init_world_getElem? (qsort : Qsort) (preds : List (List Nat)) (arrival : Nat → List Nat)
    (malloc_pc : Nat → Nat → rempi_cp_prop_clock) (p : Nat) (s : State)
    (h : ((List.range preds.length).map (init_state qsort preds arrival malloc_pc))[p]? = some s) :
    p < preds.length ∧ s = init_state qsort preds arrival malloc_pc p := by
  have hp : p < preds.length := by
    by_contra hn
    rw [List.getElem?_eq_none (by simpa using hn)] at h
    exact Option.noConfusion h
  rw [List.getElem?_map, List.getElem?_range hp] at h
  exact ⟨hp, (Option.some.inj h).symm⟩

theorem init_world_OK (qsort : Qsort) (hq : QsortPermutes qsort) (preds : List (List Nat))
    (hv : ValidTopology preds) (arrival : Nat → List Nat) (ha : ValidArrival preds arrival)
    (malloc_pc : Nat → Nat → rempi_cp_prop_clock) :
    WorldOK preds ((List.range preds.length).map (init_state qsort preds arrival malloc_pc)) := by
  refine ⟨by simp, ?_⟩
  intro p s hp
  obtain ⟨hlt, hs⟩ := init_world_getElem? qsort preds arrival malloc_pc p s hp
  rw [hs]
  exact init_state_procOK qsort hq preds hv arrival ha malloc_pc p hlt

theorem getElem?_lt {α : Type} {l : List α} {i : Nat} {x : α} (h : l[i]? = some x) :
    i < l.length := by
  by_contra hn
  rw [List.getElem?_eq_none (by omega)] at h
  exact Option.noConfusion h

theorem getD_of_getElem? {l : List Nat} {i x : Nat} (h : l[i]? = some x) : l.getD i 0 = x := by
  rw [List.getD_eq_getElem?_getD, h]; rfl

theorem getD_replicate_zero (n j : Nat) : (List.replicate n 0).getD j 0 = 0 := by
  rw [List.getD_eq_getElem?_getD, List.getElem?_replicate]
  by_cases h : j < n
  · rw [if_pos h]; rfl
  · rw [if_neg h]; rfl

theorem getD_replicate_zero_int (n j : Nat) : (List.replicate n (0 : Int)).getD j 0 = 0 := by
  rw [List.getD_eq_getElem?_getD, List.getElem?_replicate]
  by_cases h : j < n
  · rw [if_pos h]; rfl
  · rw [if_neg h]; rfl

theorem init_state_send_counts (qsort : Qsort) (preds : List (List Nat))
    (arrival : Nat → List Nat) (malloc_pc : Nat → Nat → rempi_cp_prop_clock) (r : Nat) :
    send_counts (init_state qsort preds arrival malloc_pc r)
      = List.replicate (listing_count preds r) 0 := by
  simp [send_counts, init_state, rempi_cp_init, indexing_result, local_result]

theorem init_state_next_clocks (qsort : Qsort) (preds : List (List Nat))
    (arrival : Nat → List Nat) (malloc_pc : Nat → Nat → rempi_cp_prop_clock) (r : Nat) :
    next_clocks (init_state qsort preds arrival malloc_pc r)
      = List.replicate (listing_count preds r) 0 := by
  simp [next_clocks, init_state, rempi_cp_init, indexing_result, local_result]

theorem init_state_recv_counts (qsort : Qsort) (preds : List (List Nat))
    (arrival : Nat → List Nat) (malloc_pc : Nat → Nat → rempi_cp_prop_clock) (r : Nat) :
    (init_state qsort preds arrival malloc_pc r).rempi_recv_counts
      = List.replicate (preds.getD r []).length 0 := rfl

/-- The run of valid calls from the initialised group, followed by a collection
on `a`: the facts about the edge from `b = a.pred_ranks[i]` to `a`. -/
theorem gather_after_run (qsort : Qsort) (hq : QsortPermutes qsort) (preds : List (List Nat))
    (hv : ValidTopology preds) (arrival : Nat → List Nat) (ha : ValidArrival preds arrival)
    (malloc_pc : Nat → Nat → rempi_cp_prop_clock) (calls : List Call)
    (hcalls : ∀ c ∈ calls, c.valid preds) (a i b : Nat) (ps : List Nat)
    (hps : preds[a]? = some ps) (hb : ps[i]? = some b) :
    ∃ w sa sb g pc,
      world_run ((List.range preds.length).map (init_state qsort preds arrival malloc_pc)) calls
        = some w ∧
      w[a]? = some sa ∧ w[b]? = some sb ∧ Initialized sa ∧
      world_step w (Call.gather_clocks a) = some (w.set a { sa with rempi_cp_gather_pc := g }) ∧
      g.length = sa.rempi_cp_gather_pc.length ∧
      sa.rempi_pred_indices[i]? = some ((qsort compare (arrival b)).indexOf a) ∧
      umap_find sb.rempi_succ_ranks_indices a = some ((qsort compare (arrival b)).indexOf a) ∧
      sb.rempi_cp_scatter_pc[(qsort compare (arrival b)).indexOf a]? = some pc ∧
      g[i]? = some pc ∧
      pc.send_count = record_send_calls b a calls ∧
      pc.next_clock = last_next_clock b 0 calls ∧
      umap_find sa.rempi_pred_ranks_indices b = some i ∧
      sa.rempi_recv_counts[i]? = some (record_recv_calls a b calls) := by
  have hlt : a < preds.length := getElem?_lt hps
  have hi : i < ps.length := getElem?_lt hb
  have hpsD : preds.getD a [] = ps := by
    have := getElem?_eq_some_getD preds [] hlt
    rw [hps] at this
    exact (Option.some.inj this).symm
  have hbmem : b ∈ ps := List.getElem?_mem hb
  have hpsv := hv ps (List.getElem?_mem hps)
  have hblt : b < preds.length := hpsv.2 b hbmem
  have hlen := sorted_length qsort hq preds hv arrival ha b hblt
  have hsnd := sorted_nodup qsort hq preds hv arrival ha b hblt
  have hin : a ∈ qsort compare (arrival b) :=
    (sorted_mem qsort hq preds hv arrival ha b hblt a).2 ⟨ps, hps, hbmem⟩
  have hidx : (qsort compare (arrival b)).indexOf a < listing_count preds b := by
    rw [← hlen]; exact List.indexOf_lt_length.2 hin
  obtain ⟨w, hrun, hwok, heff⟩ := world_run_effect preds calls hcalls _
    (init_world_OK qsort hq preds hv arrival ha malloc_pc)
  have h0a : ((List.range preds.length).map (init_state qsort preds arrival malloc_pc))[a]?
      = some (init_state qsort preds arrival malloc_pc a) := by
    rw [List.getElem?_map, List.getElem?_range hlt]; rfl
  have h0b : ((List.range preds.length).map (init_state qsort preds arrival malloc_pc))[b]?
      = some (init_state qsort preds arrival malloc_pc b) := by
    rw [List.getElem?_map, List.getElem?_range hblt]; rfl
  obtain ⟨sa, hsa, ⟨hta, _, _, hrecv⟩⟩ := heff a _ h0a
  obtain ⟨sb, hsb, ⟨htb, hsend, hclock, _⟩⟩ := heff b _ h0b
  have hinita : Initialized sa := (hwok.2 a sa hsa).1
  have hinitb : Initialized sb := (hwok.2 b sb hsb).1
  -- the tables of `a`
  have hpr : sa.rempi_pred_ranks = ps := by rw [hta.pred_ranks]; exact hpsD
  have hpi : sa.rempi_pred_indices[i]? = some ((qsort compare (arrival b)).indexOf a) := by
    rw [hta.pred_indices]
    show (indexing_result qsort preds arrival a).output_pred_indices[i]? = _
    simp only [indexing_result, hpsD]
    rw [List.getElem?_map, List.getElem?_range hi]
    simp only [Option.map_some', getD_of_getElem? hb]
  have hpm : umap_find sa.rempi_pred_ranks_indices b = some i := by
    rw [hta.pred_map]
    show umap_find (init_map_loop (preds.getD a []) 0 []) b = some i
    rw [hpsD, init_map_loop_find _ hpsv.1, if_pos hbmem]
    have : ps.indexOf b = i := by
      have h1 : ps[i] = b := by
        have := List.getElem?_eq_getElem hi
        rw [hb] at this
        exact (Option.some.inj this).symm
      rw [← h1]
      exact List.indexOf_getElem hpsv.1 i hi
    rw [this, Nat.zero_add]
  -- the tables of `b`
  have hsm : umap_find sb.rempi_succ_ranks_indices a
      = some ((qsort compare (arrival b)).indexOf a) := by
    rw [htb.succ_map, init_state_succ_map qsort hq preds hv arrival ha malloc_pc b hblt,
      init_map_loop_find _ hsnd, if_pos hin, Nat.zero_add]
  have hcount : sb.rempi_succ_rank_count = listing_count preds b := htb.succ_count
  have hjlt : (qsort compare (arrival b)).indexOf a < sb.rempi_cp_scatter_pc.length := by
    rw [hinitb.2.2.2.2.2.1, hcount]; exact hidx
  have hpc := List.getElem?_eq_getElem hjlt
  -- the published record
  have hinit_sc : (send_counts (init_state qsort preds arrival malloc_pc b)).getD
      ((qsort compare (arrival b)).indexOf a) 0 = 0 := by
    rw [init_state_send_counts, getD_replicate_zero]
  have hinit_nc : (next_clocks (init_state qsort preds arrival malloc_pc b)).getD
      ((qsort compare (arrival b)).indexOf a) 0 = 0 := by
    rw [init_state_next_clocks, getD_replicate_zero_int]
  have hsc : (sb.rempi_cp_scatter_pc[(qsort compare (arrival b)).indexOf a]).send_count
      = record_send_calls b a calls := by
    have h1 := hsend a _ (by
      rw [init_state_succ_map qsort hq preds hv arrival ha malloc_pc b hblt,
        init_map_loop_find _ hsnd, if_pos hin, Nat.zero_add])
    rw [hinit_sc, Nat.zero_add] at h1
    rw [← h1]
    simp [send_counts, List.getD_eq_getElem?_getD, List.getElem?_map, hpc]
  have hnc : (sb.rempi_cp_scatter_pc[(qsort compare (arrival b)).indexOf a]).next_clock
      = last_next_clock b 0 calls := by
    have h1 := hclock _ (show (qsort compare (arrival b)).indexOf a
      < (init_state qsort preds arrival malloc_pc b).rempi_succ_rank_count from hidx)
    rw [hinit_nc] at h1
    rw [← h1]
    simp [next_clocks, List.getD_eq_getElem?_getD, List.getElem?_map, hpc]
  -- the receive counter
  have hrc : sa.rempi_recv_counts[i]? = some (record_recv_calls a b calls) := by
    have h1 := hrecv b i (by
      have h2 := hpm
      rw [hta.pred_map] at h2
      exact h2)
    have h0 : (init_state qsort preds arrival malloc_pc a).rempi_recv_counts.getD i 0 = 0 := by
      rw [init_state_recv_counts, getD_replicate_zero]
    rw [h0, Nat.zero_add] at h1
    have hilt : i < sa.rempi_recv_counts.length := by
      rw [hinita.2.2.1, ← hinita.2.2.2.1, hpr]; exact hi
    rw [List.getElem?_eq_getElem hilt, ← h1, List.getD_eq_getElem _ _ hilt]
  -- the collection
  obtain ⟨g, hall, hglen, hget⟩ := gather_clocks_spec (world_PMPI_Get w) sa hinita
  have hicount : i < sa.rempi_pred_rank_count := by
    rw [← hinita.2.2.2.1, hpr]; exact hi
  have hgi : g[i]? = some sb.rempi_cp_scatter_pc[(qsort compare (arrival b)).indexOf a] := by
    rw [hget i, if_pos hicount, hpr, getD_of_getElem? hb, getD_of_getElem? hpi]
    simp only [world_PMPI_Get, hsb, hpc]
  refine ⟨w, sa, sb, g, _, hrun, hsa, hsb, hinita, ?_, hglen, hpi, hsm, hpc, hgi, hsc, hnc,
    hpm, hrc⟩
  simp only [world_step, world_update, Call.proc, Call.op, hsa, hall MPI_SUCCESS, Option.map_some']

/-! ## Runs of the group -/

/-- C2: in every run of calls that respect the topology, started by
`rempi_cp_init` on a group whose predecessor lists name ranks of the group and
repeat none, in which `b` called `record_send(a)` `s` times and `a` called
`record_recv(b)` `r` times, a collection on `a` followed by
`rempi_cp_has_in_flight_msgs(b)` on `a` returns 1 when `s <= r` and 0 when
`s > r`: the opposite of the answer the specification asks for. -/
theorem C2_collect_then_oracle (qsort : Qsort) (hq : QsortPermutes qsort)
    (preds : List (List Nat)) (hv : ValidTopology preds) (arrival : Nat → List Nat)
    (ha : ValidArrival preds arrival) (malloc_pc : Nat → Nat → rempi_cp_prop_clock)
    (calls : List Call) (hcalls : ∀ c ∈ calls, c.valid preds) (a b : Nat) (ps : List Nat)
    (hps : preds[a]? = some ps) (hb : b ∈ ps) :
    ∃ (w0 w w1 : List State),
      world_init qsort preds arrival malloc_pc = some w0 ∧
      world_run w0 calls = some w ∧
      world_step w (Call.gather_clocks a) = some w1 ∧
      world_has_in_flight w1 a b = some
        (if record_send_calls b a calls ≤ record_recv_calls a b calls then 1 else 0) := by
  obtain ⟨i, hi⟩ := List.mem_iff_getElem?.1 hb
  obtain ⟨w, sa, sb, g, pc, hrun, hsa, hsb, hinit, hstep, hglen, _, _, _, hgi, hsc, _, hpm,
    hrc⟩ := gather_after_run qsort hq preds hv arrival ha malloc_pc calls hcalls a i b ps hps hi
  refine ⟨_, w, _, world_init_eq qsort hq preds hv arrival ha malloc_pc, hrun, hstep, ?_⟩
  have hst : SameTables sa { sa with rempi_cp_gather_pc := g } := ⟨rfl, hglen, rfl, rfl⟩
  obtain ⟨pc1, rc1, h1, h2, hres⟩ :=
    has_in_flight_present { sa with rempi_cp_gather_pc := g } (hst.initialized hinit) b i hpm
  have e1 : pc1 = pc := by
    have : some pc1 = some pc := by rw [← h1]; exact hgi
    exact Option.some.inj this
  have e2 : rc1 = record_recv_calls a b calls := by
    have : some rc1 = some (record_recv_calls a b calls) := by rw [← h2]; exact hrc
    exact Option.some.inj this
  simp only [world_has_in_flight, List.getElem?_set_self (getElem?_lt hsa), hres,
    Option.map_some', e1, e2, hsc]

/-- C2 at the failing input: in the group of three, rank 0 records one send to
rank 2, rank 2 collects and asks about rank 0 (`s = 1 > 0 = r`): the answer is
0.  After rank 2 records the receive and collects again (`s = 1 <= 1 = r`) the
answer is 1. -/
theorem C2_collect_then_oracle_failing_input :
    QsortPermutes insertion_qsort ∧ ValidTopology scenario_preds ∧
    ValidArrival scenario_preds (ascending_arrival scenario_preds) ∧
    (∀ c ∈ [Call.record_send 0 2 0], c.valid scenario_preds) ∧
    record_send_calls 0 2 [Call.record_send 0 2 0] = 1 ∧
    record_recv_calls 2 0 [Call.record_send 0 2 0] = 0 ∧
    scenario_answer [Call.record_send 0 2 0] = some 0 ∧
    scenario_answer [Call.record_send 0 2 0, Call.gather_clocks 2, Call.record_recv 2 0 0]
      = some 1 ∧
    ∃ (w0 w w1 : List State),
      world_init insertion_qsort scenario_preds (ascending_arrival scenario_preds) zero_malloc
        = some w0 ∧
      world_run w0 [Call.record_send 0 2 0] = some w ∧
      world_step w (Call.gather_clocks 2) = some w1 ∧
      world_has_in_flight w1 2 0 = some
        (if record_send_calls 0 2 [Call.record_send 0 2 0]
            ≤ record_recv_calls 2 0 [Call.record_send 0 2 0] then 1 else 0) :=
  ⟨insertion_qsort_permutes, by decide, by decide, by decide, by decide, by decide, by decide,
    by decide,
    C2_collect_then_oracle insertion_qsort insertion_qsort_permutes scenario_preds (by decide)
      (ascending_arrival scenario_preds) (by decide) zero_malloc [Call.record_send 0 2 0]
      (by decide) 2 0 [0, 1] (by decide) (by decide)⟩

/-- C8: in every run of calls that respect the topology, started by
`rempi_cp_init` on a group whose predecessor lists name ranks of the group and
repeat none, every published `send_count` and every receive counter is 0 after
`rempi_cp_init`, every further call completes, and after it no published
`send_count` and no receive counter of any process is below its value before
the call. -/
theorem C8_counters_monotone (qsort : Qsort) (hq : QsortPermutes qsort)
    (preds : List (List Nat)) (hv : ValidTopology preds) (arrival : Nat → List Nat)
    (ha : ValidArrival preds arrival) (malloc_pc : Nat → Nat → rempi_cp_prop_clock)
    (calls : List Call) (hcalls : ∀ x ∈ calls, x.valid preds) (c : Call)
    (hc : c.valid preds) :
    ∃ (w0 w w1 : List State),
      world_init qsort preds arrival malloc_pc = some w0 ∧
      world_run w0 calls = some w ∧
      world_step w c = some w1 ∧
      (∀ (p : Nat) (s0 : State), w0[p]? = some s0 →
        (∀ x ∈ send_counts s0, x = 0) ∧ ∀ x ∈ s0.rempi_recv_counts, x = 0) ∧
      ∀ (p : Nat) (s : State), w[p]? = some s → ∃ s1, w1[p]? = some s1 ∧
        (send_counts s1).length = (send_counts s).length ∧
        s1.rempi_recv_counts.length = s.rempi_recv_counts.length ∧
        (∀ j, (send_counts s).getD j 0 ≤ (send_counts s1).getD j 0) ∧
        (∀ k, s.rempi_recv_counts.getD k 0 ≤ s1.rempi_recv_counts.getD k 0) := by
  obtain ⟨w, hrun, hwok, _⟩ := world_run_effect preds calls hcalls _
    (init_world_OK qsort hq preds hv arrival ha malloc_pc)
  obtain ⟨w1, hstep, _, heff⟩ := world_step_effect preds w hwok c hc
  refine ⟨_, w, w1, world_init_eq qsort hq preds hv arrival ha malloc_pc, hrun, hstep, ?_, ?_⟩
  · intro p s0 hp
    obtain ⟨_, hs0⟩ := init_world_getElem? qsort preds arrival malloc_pc p s0 hp
    subst hs0
    rw [init_state_send_counts, init_state_recv_counts]
    exact ⟨fun x hx => List.eq_of_mem_replicate hx, fun x hx => List.eq_of_mem_replicate hx⟩
  · intro p s hp
    obtain ⟨s1, hp1, _, hgrow⟩ := heff p s hp
    exact ⟨s1, hp1, hgrow⟩

/-- C8 on the group of three: after one send recorded by rank 0, rank 2 records
the receive. -/
theorem C8_counters_monotone_witness :
    QsortPermutes insertion_qsort ∧ ValidTopology scenario_preds ∧
    ValidArrival scenario_preds (ascending_arrival scenario_preds) ∧
    (∀ x ∈ [Call.record_send 0 2 0], x.valid scenario_preds) ∧
    (Call.record_recv 2 0 0).valid scenario_preds ∧
    ∃ (w0 w w1 : List State),
      world_init insertion_qsort scenario_preds (ascending_arrival scenario_preds) zero_malloc
        = some w0 ∧
      world_run w0 [Call.record_send 0 2 0] = some w ∧
      world_step w (Call.record_recv 2 0 0) = some w1 ∧
      (∀ (p : Nat) (s0 : State), w0[p]? = some s0 →
        (∀ x ∈ send_counts s0, x = 0) ∧ ∀ x ∈ s0.rempi_recv_counts, x = 0) ∧
      ∀ (p : Nat) (s : State), w[p]? = some s → ∃ s1, w1[p]? = some s1 ∧
        (send_counts s1).length = (send_counts s).length ∧
        s1.rempi_recv_counts.length = s.rempi_recv_counts.length ∧
        (∀ j, (send_counts s).getD j 0 ≤ (send_counts s1).getD j 0) ∧
        (∀ k, s.rempi_recv_counts.getD k 0 ≤ s1.rempi_recv_counts.getD k 0) :=
  ⟨insertion_qsort_permutes, by decide, by decide, by decide, by decide,
    C8_counters_monotone insertion_qsort insertion_qsort_permutes scenario_preds (by decide)
      (ascending_arrival scenario_preds) (by decide) zero_malloc [Call.record_send 0 2 0]
      (by decide) (Call.record_recv 2 0 0) (by decide)⟩

/-! ## Runs with arbitrary calls -/

theorem umap_subscript_values (m : List (Nat × Nat)) (k n : Nat)
    (hm : ∀ p ∈ m, p.2 < n) (hidx : (umap_subscript m k).2 < n) :
    ∀ p ∈ (umap_subscript m k).1, p.2 < n := by
  cases hfind : umap_find m k with
  | some v => rw [umap_subscript_present hfind]; exact hm
  | none =>
    rw [umap_subscript_absent hfind] at hidx ⊢
    intro p hp
    rcases List.mem_append.1 hp with h | h
    · exact hm p h
    · rw [List.mem_singleton.1 h]; exact hidx

theorem record_send_inv (s s1 : State) (d clock : Nat)
    (h : rempi_cp_record_send s d clock = some s1) :
    ∃ pc, s.rempi_cp_scatter_pc[(umap_subscript s.rempi_succ_ranks_indices d).2]? = some pc ∧
      s1 = { s with
        rempi_succ_ranks_indices := (umap_subscript s.rempi_succ_ranks_indices d).1,
        rempi_cp_scatter_pc :=
          (s.rempi_cp_scatter_pc.set (umap_subscript s.rempi_succ_ranks_indices d).2
            ⟨pc.next_clock, pc.send_count + 1⟩) } := by
  unfold rempi_cp_record_send at h
  cases hpc : s.rempi_cp_scatter_pc[(umap_subscript s.rempi_succ_ranks_indices d).2]? with
  | none => simp [hpc] at h
  | some pc =>
    simp only [hpc] at h
    exact ⟨pc, rfl, (Option.some.inj h).symm⟩

theorem record_recv_inv (s s1 : State) (r clock : Nat)
    (h : rempi_cp_record_recv s r clock = some s1) :
    ∃ rc, s.rempi_recv_counts[(umap_subscript s.rempi_pred_ranks_indices r).2]? = some rc ∧
      s1 = { s with
        rempi_pred_ranks_indices := (umap_subscript s.rempi_pred_ranks_indices r).1,
        rempi_recv_counts :=
          (s.rempi_recv_counts.set (umap_subscript s.rempi_pred_ranks_indices r).2 (rc + 1)) } := by
  unfold rempi_cp_record_recv at h
  cases hrc : s.rempi_recv_counts[(umap_subscript s.rempi_pred_ranks_indices r).2]? with
  | none => simp [hrc] at h
  | some rc =>
    simp only [hrc] at h
    exact ⟨rc, rfl, (Option.some.inj h).symm⟩

theorem has_in_flight_inv (s s1 : State) (r : Nat)
    (h : (rempi_cp_has_in_flight_msgs s r).map Prod.fst = some s1) :
    (umap_subscript s.rempi_pred_ranks_indices r).2 < s.rempi_cp_gather_pc.length ∧
      s1 = { s with
        rempi_pred_ranks_indices := (umap_subscript s.rempi_pred_ranks_indices r).1 } := by
  unfold rempi_cp_has_in_flight_msgs at h
  cases hpc : s.rempi_cp_gather_pc[(umap_subscript s.rempi_pred_ranks_indices r).2]? with
  | none => simp [hpc] at h
  | some pc =>
    cases hrc : s.rempi_recv_counts[(umap_subscript s.rempi_pred_ranks_indices r).2]? with
    | none => simp [hpc, hrc] at h
    | some rc =>
      simp only [hpc, hrc, Option.map_some'] at h
      exact ⟨getElem?_lt hpc, (Option.some.inj h).symm⟩

/-- Every call that returns keeps the state of its process consistent and its
arrays in place, whatever rank it names. -/
theorem op_initialized (w : List State) (c : Call) (s s1 : State) (hs : Initialized s)
    (h : c.op w s = some s1) : Initialized s1 ∧ SameArrays s s1 := by
  obtain ⟨h0, hg, hrc, hpr, hpi, hsc, hp, hsu⟩ := hs
  cases c with
  | record_send p d clock =>
    obtain ⟨pc, hpc, hs1⟩ := record_send_inv s s1 d clock h
    have hidx : (umap_subscript s.rempi_succ_ranks_indices d).2 < s.rempi_succ_rank_count := by
      have := getElem?_lt hpc; omega
    subst hs1
    exact ⟨⟨h0, hg, hrc, hpr, hpi, by simpa using hsc, hp,
      umap_subscript_values _ d _ hsu hidx⟩, rfl, rfl, rfl, rfl, rfl, by simp, rfl⟩
  | record_recv p r clock =>
    obtain ⟨rc, hrc1, hs1⟩ := record_recv_inv s s1 r clock h
    have hidx : (umap_subscript s.rempi_pred_ranks_indices r).2 < s.rempi_pred_rank_count := by
      have := getElem?_lt hrc1; omega
    subst hs1
    exact ⟨⟨h0, hg, by simpa using hrc, hpr, hpi, hsc,
      umap_subscript_values _ r _ hp hidx, hsu⟩, rfl, rfl, rfl, rfl, rfl, rfl, by simp⟩
  | set_next_clock p clock =>
    have hspec := set_next_clock_spec s ⟨h0, hg, hrc, hpr, hpi, hsc, hp, hsu⟩ clock
    have hs1 : s1 = _ := (Option.some.inj (h.symm.trans hspec))
    subst hs1
    exact ⟨⟨h0, hg, hrc, hpr, hpi, by simpa using hsc, hp, hsu⟩,
      rfl, rfl, rfl, rfl, rfl, by simp, rfl⟩
  | gather_clocks p =>
    obtain ⟨g, hall, hlen, _⟩ := gather_clocks_spec (world_PMPI_Get w) s
      ⟨h0, hg, hrc, hpr, hpi, hsc, hp, hsu⟩
    have h1 : (rempi_cp_gather_clocks (world_PMPI_Get w) MPI_SUCCESS s).map Prod.fst
        = some s1 := h
    rw [hall MPI_SUCCESS] at h1
    have hs1 : s1 = _ := (Option.some.inj h1).symm
    subst hs1
    exact ⟨⟨h0, by rw [← hg]; exact hlen, hrc, hpr, hpi, hsc, hp, hsu⟩,
      rfl, rfl, rfl, rfl, hlen, rfl, rfl⟩
  | has_in_flight_msgs p r =>
    obtain ⟨hidx, hs1⟩ := has_in_flight_inv s s1 r h
    have hidx1 : (umap_subscript s.rempi_pred_ranks_indices r).2 < s.rempi_pred_rank_count := by
      omega
    subst hs1
    exact ⟨⟨h0, hg, hrc, hpr, hpi, hsc, umap_subscript_values _ r _ hp hidx1, hsu⟩,
      rfl, rfl, rfl, rfl, rfl, rfl, rfl⟩

theorem sendEffect_nil (p : Nat) (s : State) : SendEffect p [] s s :=
  ⟨rfl, fun _ _ _ => rfl, fun _ _ => rfl⟩

theorem sendEffect_other (q : Nat) (c : Call) (h : c.proc ≠ q) (s : State) :
    SendEffect q [c] s s :=
  ⟨rfl, fun d _ _ => by rw [record_send_calls_other q d c h]; rfl,
    fun _ _ => by rw [last_next_clock_other q _ c h]⟩

theorem sendEffect_cons {p : Nat} {c : Call} {cs : List Call} {s s1 s2 : State}
    (hcount : s1.rempi_succ_rank_count = s.rempi_succ_rank_count)
    (h1 : SendEffect p [c] s s1) (h2 : SendEffect p cs s1 s2) :
    SendEffect p (c :: cs) s s2 := by
  obtain ⟨a1, b1, c1⟩ := h1
  obtain ⟨a2, b2, c2⟩ := h2
  refine ⟨a2.trans a1, ?_, ?_⟩
  · intro d j hd
    rw [record_send_calls_cons, b2 d j (by rw [a1]; exact hd), b1 d j hd]
    omega
  · intro j hj
    rw [last_next_clock_cons, c2 j (by rw [hcount]; exact hj), c1 j hj]

theorem sendEffect_of_effect {p : Nat} {calls : List Call} {s s1 : State}
    (h : Effect p calls s s1) : SendEffect p calls s s1 :=
  ⟨h.1.succ_map, h.2.1, h.2.2.1⟩

theorem record_send_sendEffect (p : Nat) (s : State) (hinit : Initialized s)
    (hinj : ∀ d d1 j, umap_find s.rempi_succ_ranks_indices d = some j →
      umap_find s.rempi_succ_ranks_indices d1 = some j → d = d1)
    (d j clock : Nat) (hj : umap_find s.rempi_succ_ranks_indices d = some j) :
    ∃ s1, rempi_cp_record_send s d clock = some s1 ∧
      SendEffect p [Call.record_send p d clock] s s1 := by
  obtain ⟨pc, hpc, hsend⟩ := record_send_present s hinit d j clock hj
  have hjlt : j < s.rempi_cp_scatter_pc.length := getElem?_lt hpc
  have hsc : send_counts { s with rempi_cp_scatter_pc :=
      (s.rempi_cp_scatter_pc.set j ⟨pc.next_clock, pc.send_count + 1⟩) }
      = (send_counts s).set j (pc.send_count + 1) := by
    simp [send_counts, List.map_set]
  have hold : (send_counts s).getD j 0 = pc.send_count := by
    simp [send_counts, List.getD_eq_getElem?_getD, List.getElem?_map, hpc]
  have hjlt1 : j < (send_counts s).length := by simpa [send_counts] using hjlt
  have hnc : next_clocks { s with rempi_cp_scatter_pc :=
      (s.rempi_cp_scatter_pc.set j ⟨pc.next_clock, pc.send_count + 1⟩) } = next_clocks s := by
    simp only [next_clocks, List.map_set]
    apply List.ext_getElem?
    intro n
    by_cases hn : j = n
    · subst hn
      rw [List.getElem?_set_self (by simpa using hjlt), List.getElem?_map, hpc]; rfl
    · rw [List.getElem?_set_ne hn]
  refine ⟨_, hsend, rfl, ?_, ?_⟩
  · intro d1 j1 hd1
    rw [hsc]
    by_cases hjj : j1 = j
    · subst hjj
      have hdd : d1 = d := hinj d1 d j1 hd1 hj
      subst hdd
      rw [getD_set_self _ _ _ hjlt1, hold]
      simp [record_send_calls]
    · have hdd : d1 ≠ d := by
        intro h; subst h
        rw [hj] at hd1
        exact hjj (Option.some.inj hd1).symm
      have hdd1 : ¬ d = d1 := fun h => hdd h.symm
      rw [getD_set_ne _ _ _ _ (fun h => hjj h.symm)]
      simp [record_send_calls, hdd1]
  · intro j1 _
    rw [hnc]; rfl

theorem set_next_clock_sendEffect (p : Nat) (s : State) (hinit : Initialized s) (clock : Int) :
    ∃ s1, rempi_cp_set_next_clock s clock = some s1 ∧
      SendEffect p [Call.set_next_clock p clock] s s1 := by
  have hlen : s.rempi_cp_scatter_pc.length = s.rempi_succ_rank_count := hinit.2.2.2.2.2.1
  have hsc : send_counts { s with rempi_cp_scatter_pc :=
      (s.rempi_cp_scatter_pc.map (fun pc => ⟨clock, pc.send_count⟩)) } = send_counts s := by
    simp [send_counts, List.map_map, Function.comp_def]
  refine ⟨_, set_next_clock_spec s hinit clock, rfl, ?_, ?_⟩
  · intro d j _
    rw [hsc]; simp [record_send_calls]
  · intro j hj
    have hj1 : j < s.rempi_cp_scatter_pc.length := by omega
    simp [next_clocks, last_next_clock, List.getD_eq_getElem?_getD, List.getElem?_map,
      List.getElem?_eq_getElem hj1]

/-- The effect of one returning call of process `p` on its published store, when
the call, if it is a `record_send`, names a rank of the successor map. -/
theorem op_sendEffect (w : List State) (c : Call) (s s1 : State) (hinit : Initialized s)
    (hinj : ∀ d d1 j, umap_find s.rempi_succ_ranks_indices d = some j →
      umap_find s.rempi_succ_ranks_indices d1 = some j → d = d1)
    (hvalid : ∀ d clock, c = Call.record_send c.proc d clock →
      ∃ j, umap_find s.rempi_succ_ranks_indices d = some j)
    (h : c.op w s = some s1) : SendEffect c.proc [c] s s1 := by
  cases c with
  | record_send p d clock =>
    obtain ⟨j, hj⟩ := hvalid d clock rfl
    obtain ⟨s2, h2, heff⟩ := record_send_sendEffect p s hinit hinj d j clock hj
    have : s1 = s2 := Option.some.inj (h.symm.trans h2)
    rw [this]; exact heff
  | record_recv p r clock =>
    obtain ⟨rc, _, hs1⟩ := record_recv_inv s s1 r clock h
    subst hs1
    exact ⟨rfl, fun d j _ => by simp [record_send_calls, send_counts], fun j _ => rfl⟩
  | set_next_clock p clock =>
    obtain ⟨s2, h2, heff⟩ := set_next_clock_sendEffect p s hinit clock
    have : s1 = s2 := Option.some.inj (h.symm.trans h2)
    rw [this]; exact heff
  | gather_clocks p =>
    obtain ⟨s2, h2, heff, _⟩ := gather_effect p s hinit w
    have : s1 = s2 := Option.some.inj (h.symm.trans h2)
    rw [this]; exact sendEffect_of_effect heff
  | has_in_flight_msgs p r =>
    obtain ⟨_, hs1⟩ := has_in_flight_inv s s1 r h
    subst hs1
    exact ⟨rfl, fun d j _ => by simp [record_send_calls, send_counts], fun j _ => rfl⟩

theorem world_update_inv (w w1 : List State) (p : Nat) (op : State → Option State)
    (h : world_update w p op = some w1) :
    ∃ s s1, w[p]? = some s ∧ op s = some s1 ∧ w1 = w.set p s1 := by
  unfold world_update at h
  cases hs : w[p]? with
  | none => simp [hs] at h
  | some s =>
    cases hop : op s with
    | none => simp [hs, hop] at h
    | some s1 =>
      simp only [hs, hop] at h
      exact ⟨s, s1, rfl, hop, (Option.some.inj h).symm⟩

theorem SameArrays.refl_arrays (s : State) : SameArrays s s :=
  ⟨rfl, rfl, rfl, rfl, rfl, rfl, rfl⟩

theorem SameArrays.trans_arrays {s s1 s2 : State} (h1 : SameArrays s s1)
    (h2 : SameArrays s1 s2) : SameArrays s s2 :=
  ⟨h2.1.trans h1.1, h2.2.1.trans h1.2.1, h2.2.2.1.trans h1.2.2.1,
    h2.2.2.2.1.trans h1.2.2.2.1, h2.2.2.2.2.1.trans h1.2.2.2.2.1,
    h2.2.2.2.2.2.1.trans h1.2.2.2.2.2.1, h2.2.2.2.2.2.2.trans h1.2.2.2.2.2.2⟩

/-- A completed run of arbitrary calls keeps every process consistent with its
arrays in place, and it acts on the published store of `b` as counted, as long
as every `record_send` of `b` names a rank of the successor map of `b`. -/
theorem world_run_track (b : Nat) (calls : List Call) (w w1 : List State)
    (hw : ∀ (p : Nat) (s : State), w[p]? = some s → Initialized s)
    (hrun : world_run w calls = some w1) (sb : State) (hsb : w[b]? = some sb)
    (hinj : ∀ d d1 j, umap_find sb.rempi_succ_ranks_indices d = some j →
      umap_find sb.rempi_succ_ranks_indices d1 = some j → d = d1)
    (hsend : ∀ d clock, Call.record_send b d clock ∈ calls →
      ∃ j, umap_find sb.rempi_succ_ranks_indices d = some j) :
    (∀ (p : Nat) (s : State), w[p]? = some s →
      ∃ s1, w1[p]? = some s1 ∧ Initialized s1 ∧ SameArrays s s1) ∧
    ∃ sb1, w1[b]? = some sb1 ∧ SendEffect b calls sb sb1 := by
  induction calls generalizing w sb with
  | nil =>
    have : w1 = w := (Option.some.inj hrun).symm
    subst this
    exact ⟨fun p s hp => ⟨s, hp, hw p s hp, SameArrays.refl_arrays s⟩,
      sb, hsb, sendEffect_nil b sb⟩
  | cons c cs ih =>
    simp only [world_run] at hrun
    cases hstep : world_step w c with
    | none => simp [hstep] at hrun
    | some w2 =>
      simp only [hstep] at hrun
      obtain ⟨s, s2, hs, hop, hw2⟩ := world_update_inv w w2 c.proc (c.op w) hstep
      have hlt : c.proc < w.length := getElem?_lt hs
      obtain ⟨hinit2, harr2⟩ := op_initialized w c s s2 (hw _ _ hs) hop
      -- every process after the first call
      have hall : ∀ (p : Nat) (t : State), w[p]? = some t →
          ∃ t2, w2[p]? = some t2 ∧ Initialized t2 ∧ SameArrays t t2 := by
        intro p t hp
        by_cases hpc : c.proc = p
        · subst hpc
          rw [hs] at hp
          rw [← Option.some.inj hp]
          exact ⟨s2, by rw [hw2]; exact List.getElem?_set_self hlt, hinit2, harr2⟩
        · exact ⟨t, by rw [hw2, List.getElem?_set_ne hpc]; exact hp, hw p t hp,
            SameArrays.refl_arrays t⟩
      have hw2init : ∀ (p : Nat) (t : State), w2[p]? = some t → Initialized t := by
        intro p t hp
        by_cases hpc : c.proc = p
        · subst hpc
          rw [hw2, List.getElem?_set_self hlt] at hp
          rw [← Option.some.inj hp]; exact hinit2
        · rw [hw2, List.getElem?_set_ne hpc] at hp
          exact hw p t hp
      -- process `b` after the first call
      have hb2 : ∃ sb2, w2[b]? = some sb2 ∧ SendEffect b [c] sb sb2 ∧
          sb2.rempi_succ_rank_count = sb.rempi_succ_rank_count := by
        by_cases hpc : c.proc = b
        · have hs' : s = sb := by
            rw [hpc] at hs; rw [hs] at hsb; exact Option.some.inj hsb
          subst hs'
          have heff := op_sendEffect w c s s2 (hw _ _ hs) hinj
            (fun d clock hc => hsend d clock (by rw [← hpc, ← hc]; exact List.mem_cons_self _ _))
            hop
          rw [hpc] at heff
          exact ⟨s2, by rw [hw2, ← hpc]; exact List.getElem?_set_self hlt, heff, harr2.2.2.2.1⟩
        · exact ⟨sb, by rw [hw2, List.getElem?_set_ne hpc]; exact hsb,
            sendEffect_other b c hpc sb, rfl⟩
      obtain ⟨sb2, hsb2, heff2, hcount2⟩ := hb2
      obtain ⟨hrest, sb1, hsb1, heff1⟩ := ih w2 hw2init hrun sb2 hsb2
        (by rw [heff2.1]; exact hinj)
        (fun d clock hmem => by
          rw [heff2.1]; exact hsend d clock (List.mem_cons_of_mem _ hmem))
      refine ⟨?_, sb1, hsb1, sendEffect_cons hcount2 heff2 heff1⟩
      intro p t hp
      obtain ⟨t2, hp2, _, ha2⟩ := hall p t hp
      obtain ⟨t1, hp1, hi1, ha1⟩ := hrest p t2 hp2
      exact ⟨t1, hp1, hi1, ha2.trans_arrays ha1⟩

/-- C5, as stated, fails in the group of three (rank 2 lists ranks 0 and 1) when
rank 0 calls `rempi_cp_record_send(1)`: rank 1 is not a successor of rank 0, the
lookup yields index 0, which is the slot of rank 2, and the collection on rank 2
reads `send_count = 1` from rank 0 although rank 0 made no `record_send(2)`
call. -/
theorem C5_unlisted_send_counted :
    ValidTopology scenario_preds ∧
    ValidArrival scenario_preds (ascending_arrival scenario_preds) ∧
    scenario_preds[2]? = some [0, 1] ∧
    record_send_calls 0 2 [Call.record_send 0 1 0] = 0 ∧
    scenario_snapshot [Call.record_send 0 1 0]
      = some [{ next_clock := 0, send_count := 1 }, { next_clock := 0, send_count := 0 }] := by
  decide

/-- C5 amended: in every completed run of calls started by `rempi_cp_init` on a
group whose predecessor lists name ranks of the group and repeat none, in which
every `rempi_cp_record_send` call of `b` names a successor of `b`, a collection
on `a` succeeds and, for every position `i` with `b = a.pred_ranks[i]`, it sets
`a.gather_pc[i]` to the record `b` publishes at slot `j = a.pred_indices[i]`;
`j` is the slot the successor map of `b` gives to `a`, so the `send_count` read
is the number of `record_send(a)` calls of `b` and the `next_clock` read is the
last value `b` passed to `rempi_cp_set_next_clock`, 0 if there was none. -/
theorem C5_collect_reads_published_slot (qsort : Qsort) (hq : QsortPermutes qsort)
    (preds : List (List Nat)) (hv : ValidTopology preds) (arrival : Nat → List Nat)
    (ha : ValidArrival preds arrival) (malloc_pc : Nat → Nat → rempi_cp_prop_clock)
    (calls : List Call) (w0 w : List State)
    (h0 : world_init qsort preds arrival malloc_pc = some w0)
    (hrun : world_run w0 calls = some w)
    (a i b : Nat) (ps : List Nat) (hps : preds[a]? = some ps) (hb : ps[i]? = some b)
    (hsend : ∀ d clock, Call.record_send b d clock ∈ calls → b ∈ preds.getD d []) :
    ∃ (w1 : List State) (sa sb sa1 : State) (j : Nat) (pc : rempi_cp_prop_clock),
      world_step w (Call.gather_clocks a) = some w1 ∧
      w[a]? = some sa ∧ w[b]? = some sb ∧ w1[a]? = some sa1 ∧
      sa.rempi_pred_indices[i]? = some j ∧
      umap_find sb.rempi_succ_ranks_indices a = some j ∧
      sb.rempi_cp_scatter_pc[j]? = some pc ∧
      sa1.rempi_cp_gather_pc[i]? = some pc ∧
      pc.send_count = record_send_calls b a calls ∧
      pc.next_clock = last_next_clock b 0 calls := by
  have hw0 : w0 = (List.range preds.length).map (init_state qsort preds arrival malloc_pc) := by
    have := world_init_eq qsort hq preds hv arrival ha malloc_pc
    rw [h0] at this
    exact Option.some.inj this
  subst hw0
  have hlt : a < preds.length := getElem?_lt hps
  have hi : i < ps.length := getElem?_lt hb
  have hpsD : preds.getD a [] = ps := by
    have := getElem?_eq_some_getD preds [] hlt
    rw [hps] at this
    exact (Option.some.inj this).symm
  have hbmem : b ∈ ps := List.getElem?_mem hb
  have hpsv := hv ps (List.getElem?_mem hps)
  have hblt : b < preds.length := hpsv.2 b hbmem
  have hlen := sorted_length qsort hq preds hv arrival ha b hblt
  have hsnd := sorted_nodup qsort hq preds hv arrival ha b hblt
  have hin : a ∈ qsort compare (arrival b) :=
    (sorted_mem qsort hq preds hv arrival ha b hblt a).2 ⟨ps, hps, hbmem⟩
  have hidx : (qsort compare (arrival b)).indexOf a < listing_count preds b := by
    rw [← hlen]; exact List.indexOf_lt_length.2 hin
  have hwok := init_world_OK qsort hq preds hv arrival ha malloc_pc
  have h0a : ((List.range preds.length).map (init_state qsort preds arrival malloc_pc))[a]?
      = some (init_state qsort preds arrival malloc_pc a) := by
    rw [List.getElem?_map, List.getElem?_range hlt]; rfl
  have h0b : ((List.range preds.length).map (init_state qsort preds arrival malloc_pc))[b]?
      = some (init_state qsort preds arrival malloc_pc b) := by
    rw [List.getElem?_map, List.getElem?_range hblt]; rfl
  have hokb := hwok.2 b _ h0b
  obtain ⟨hall, sb, hsb, hsm0, hsendc, hclock⟩ := world_run_track b calls _ w
    (fun p s hp => (hwok.2 p s hp).1) hrun _ h0b hokb.2.2.2.2
    (fun d clock hmem => by
      obtain ⟨qs, hqs, hbq⟩ := mem_getD_nil (hsend d clock hmem)
      exact hokb.2.2.1 d qs hqs hbq)
  obtain ⟨sa, hsa, hinita, harra⟩ := hall a _ h0a
  obtain ⟨sb', hsb', hinitb, harrb⟩ := hall b _ h0b
  have hsbeq : sb' = sb := by
    rw [hsb] at hsb'; exact (Option.some.inj hsb').symm
  subst hsbeq
  -- the tables of `a`
  have hpr : sa.rempi_pred_ranks = ps := by rw [harra.2.1]; exact hpsD
  have hpi : sa.rempi_pred_indices[i]? = some ((qsort compare (arrival b)).indexOf a) := by
    rw [harra.2.2.1]
    show (indexing_result qsort preds arrival a).output_pred_indices[i]? = _
    simp only [indexing_result, hpsD]
    rw [List.getElem?_map, List.getElem?_range hi]
    simp only [Option.map_some', getD_of_getElem? hb]
  -- the tables of `b`
  have hfind0 : umap_find (init_state qsort preds arrival malloc_pc b).rempi_succ_ranks_indices a
      = some ((qsort compare (arrival b)).indexOf a) := by
    rw [init_state_succ_map qsort hq preds hv arrival ha malloc_pc b hblt,
      init_map_loop_find _ hsnd, if_pos hin, Nat.zero_add]
  have hsm : umap_find sb'.rempi_succ_ranks_indices a
      = some ((qsort compare (arrival b)).indexOf a) := by
    rw [hsm0]; exact hfind0
  have hcount : sb'.rempi_succ_rank_count = listing_count preds b := harrb.2.2.2.1
  have hjlt : (qsort compare (arrival b)).indexOf a < sb'.rempi_cp_scatter_pc.length := by
    rw [hinitb.2.2.2.2.2.1, hcount]; exact hidx
  have hpc := List.getElem?_eq_getElem hjlt
  have hsc : (sb'.rempi_cp_scatter_pc[(qsort compare (arrival b)).indexOf a]).send_count
      = record_send_calls b a calls := by
    have h1 := hsendc a _ hfind0
    rw [init_state_send_counts, getD_replicate_zero, Nat.zero_add] at h1
    rw [← h1]
    simp [send_counts, List.getD_eq_getElem?_getD, List.getElem?_map, hpc]
  have hnc : (sb'.rempi_cp_scatter_pc[(qsort compare (arrival b)).indexOf a]).next_clock
      = last_next_clock b 0 calls := by
    have h1 := hclock _ (show (qsort compare (arrival b)).indexOf a
      < (init_state qsort preds arrival malloc_pc b).rempi_succ_rank_count from hidx)
    rw [init_state_next_clocks, getD_replicate_zero_int] at h1
    rw [← h1]
    simp [next_clocks, List.getD_eq_getElem?_getD, List.getElem?_map, hpc]
  -- the collection
  obtain ⟨g, hgall, _, hget⟩ := gather_clocks_spec (world_PMPI_Get w) sa hinita
  have hicount : i < sa.rempi_pred_rank_count := by
    rw [← hinita.2.2.2.1, hpr]; exact hi
  have hgi : g[i]? = some sb'.rempi_cp_scatter_pc[(qsort compare (arrival b)).indexOf a] := by
    rw [hget i, if_pos hicount, hpr, getD_of_getElem? hb, getD_of_getElem? hpi]
    simp only [world_PMPI_Get, hsb, hpc]
  refine ⟨w.set a { sa with rempi_cp_gather_pc := g }, sa, sb', _, _, _, ?_, hsa, hsb,
    List.getElem?_set_self (getElem?_lt hsa), hpi, hsm, hpc, hgi, hsc, hnc⟩
  simp only [world_step, world_update, Call.proc, Call.op, hsa, hgall MPI_SUCCESS,
    Option.map_some']

/-- C5 amended, on the group of three: rank 0 publishes the clock 5 and records
two sends to rank 2, while rank 2 records a receive from the rank 7 that is in
none of its maps; the collection on rank 2 reads
`{ next_clock = 5, send_count = 2 }` for its predecessor 0. -/
theorem C5_collect_reads_published_slot_witness :
    QsortPermutes insertion_qsort ∧ ValidTopology scenario_preds ∧
    ValidArrival scenario_preds (ascending_arrival scenario_preds) ∧
    world_init insertion_qsort scenario_preds (ascending_arrival scenario_preds) zero_malloc
      = some scenario_init ∧
    world_run scenario_init [Call.set_next_clock 0 5, Call.record_send 0 2 0,
        Call.record_recv 2 7 0, Call.record_send 0 2 0]
      = some (scenario_after [Call.set_next_clock 0 5, Call.record_send 0 2 0,
        Call.record_recv 2 7 0, Call.record_send 0 2 0]) ∧
    scenario_snapshot [Call.set_next_clock 0 5, Call.record_send 0 2 0,
        Call.record_recv 2 7 0, Call.record_send 0 2 0]
      = some [{ next_clock := 5, send_count := 2 }, { next_clock := 0, send_count := 0 }] ∧
    ∃ (w1 : List State) (sa sb sa1 : State) (j : Nat) (pc : rempi_cp_prop_clock),
      world_step (scenario_after [Call.set_next_clock 0 5, Call.record_send 0 2 0,
        Call.record_recv 2 7 0, Call.record_send 0 2 0]) (Call.gather_clocks 2) = some w1 ∧
      (scenario_after [Call.set_next_clock 0 5, Call.record_send 0 2 0,
        Call.record_recv 2 7 0, Call.record_send 0 2 0])[2]? = some sa ∧
      (scenario_after [Call.set_next_clock 0 5, Call.record_send 0 2 0,
        Call.record_recv 2 7 0, Call.record_send 0 2 0])[0]? = some sb ∧
      w1[2]? = some sa1 ∧
      sa.rempi_pred_indices[0]? = some j ∧
      umap_find sb.rempi_succ_ranks_indices 2 = some j ∧
      sb.rempi_cp_scatter_pc[j]? = some pc ∧
      sa1.rempi_cp_gather_pc[0]? = some pc ∧
      pc.send_count = record_send_calls 0 2 [Call.set_next_clock 0 5, Call.record_send 0 2 0,
        Call.record_recv 2 7 0, Call.record_send 0 2 0] ∧
      pc.next_clock = last_next_clock 0 0 [Call.set_next_clock 0 5, Call.record_send 0 2 0,
        Call.record_recv 2 7 0, Call.record_send 0 2 0] :=
  ⟨insertion_qsort_permutes, by decide, by decide, by decide, by decide, by decide,
    C5_collect_reads_published_slot insertion_qsort insertion_qsort_permutes scenario_preds
      (by decide) (ascending_arrival scenario_preds) (by decide) zero_malloc
      [Call.set_next_clock 0 5, Call.record_send 0 2 0, Call.record_recv 2 7 0,
        Call.record_send 0 2 0]
      scenario_init _ (by decide) (by decide) 2 0 0 [0, 1] (by decide) (by decide)
      (fun d clock hmem => by
        have hd : d = 2 := by
          simp at hmem
          omega
        subst hd
        decide)⟩

end ReMPI
